import Mathlib

/-!
Verification development for the off-line H5P translator
(`translate_h5p_gui.py` and `translate_h5p.py`).

The JSON document walker `translate_json_fields`, the sentence chunker
`translate_local_ai` and the markup fallback dispatcher
`translate_html_robust` are embedded as executable Lean functions.

Conventions of the embedding:
* Python strings are Lean `String`s; `str.strip()` is `pstrip`,
  `"c" in s` for a one-character needle is `hasChar`, and the
  two-character needle `"</" in s` is `hasLtSlash`.
* The opaque translation engine is a parameter
  `trP : String → Option String` (`none` models a raised exception,
  which the walker catches).  Strings classified as markup are handed
  to the markup translation path, modelled as a second parameter
  `trH : String → Option String` because its implementation runs the
  external HTML parser (BeautifulSoup); again `none` models a raised
  exception.
* The walker mutates the document in place in Python; here it returns
  the new document together with a `WalkSt` holding the
  `translated_flags` set (as an insertion-ordered list) and a log of
  the translation requests it issued (`CallEntry`), which records for
  each attempted leaf its path, the input string and whether the
  markup path was chosen.
-/

/-- JSON values as loaded from `content/content.json`: nested mappings
(insertion-ordered, unique string keys), sequences, and scalar leaves. -/
inductive Json where
  | str  : String → Json
  | num  : Int → Json
  | bool : Bool → Json
  | null : Json
  | arr  : List Json → Json
  | obj  : List (String × Json) → Json

/-- Python `str.strip()`: drop whitespace from both ends. -/
def pstrip (s : String) : String :=
  ⟨((s.data.dropWhile Char.isWhitespace).reverse.dropWhile Char.isWhitespace).reverse⟩

/-- Python `"c" in s` for a single-character needle `c`. -/
def hasChar (c : Char) (s : String) : Bool := s.data.contains c

/-- Scan for the two-character sequence `</` in a character list. -/
def hasLtSlashAux : List Char → Bool
  | c :: d :: rest => (c == '<' && d == '/') || hasLtSlashAux (d :: rest)
  | _ => false

/-- Python `"</" in s`. -/
def hasLtSlash (s : String) : Bool := hasLtSlashAux s.data

/-- Python `str.upper()` for ASCII input: the uppercasing translator stub
used by the spec's end-to-end scenario. -/
def pyUpper (s : String) : String := ⟨s.data.map Char.toUpper⟩

/-- The `translatable_keys` set of the GUI walker
(`translate_h5p_gui.py`, lines 342-350). -/
def translatableKeys : List String :=
  ["text", "question", "title", "alt", "label", "contentName",
   "introduction", "startButtonText", "checkAnswerButton", "submitAnswerButton",
   "showSolutionButton", "tryAgainButton", "tipsLabel", "scoreBarLabel",
   "tipAvailable", "feedbackAvailable", "readFeedback", "wrongAnswer",
   "correctAnswer", "shouldCheck", "shouldNotCheck", "noInput",
   "header", "body", "cancelLabel", "confirmLabel", "tip",
   "chosenFeedback", "notChosenFeedback"]

/-- The `keys_to_translate` set of the CLI walker
(`translate_h5p.py`, lines 48-50). -/
def cliTranslatableKeys : List String :=
  ["text", "alt", "title", "contentName", "question", "header",
   "body", "checkAnswerButton", "submitAnswerButton", "showSolutionButton",
   "a11yCheck", "a11yShowSolution", "a11yRetry", "feedbackOnWrong"]

/-- One translation request issued by the GUI walker: the path of the
leaf, the input string handed over, and whether the markup path
(`translate_html_robust`) was chosen for it. -/
structure CallEntry where
  path : String
  input : String
  markup : Bool
deriving DecidableEq

/-- Walker state: the `translated_flags` set (insertion-ordered) and the
log of translation requests issued so far. -/
structure WalkSt where
  flags : List String
  calls : List CallEntry
deriving DecidableEq

/-- The state at the start of a run (`translated_flags = set()`). -/
def initSt : WalkSt := ⟨[], []⟩

/-- The GUI walker's markup test: `"<" in value and ">" in value`
(`translate_h5p_gui.py`, line 365). -/
def isMarkupGui (s : String) : Bool := hasChar '<' s && hasChar '>' s

/-- Record one translation request in the log. -/
def logCall (st : WalkSt) (path s : String) (m : Bool) : WalkSt :=
  { st with calls := st.calls ++ [⟨path, s, m⟩] }

/-- `translated_flags.add(path)`. -/
def addFlag (st : WalkSt) (path : String) : WalkSt :=
  { st with flags := st.flags ++ [path] }

/-- Leaf translation for a translatable dictionary key
(`translate_h5p_gui.py`, lines 363-380): dispatch on the markup test,
catch engine exceptions (keeping the original value and not flagging
the path), and apply the quality gate — a result whose stripped length
is below 3 is discarded in favour of the original value, though the
path is still flagged and the value written back. -/
def guiFieldStep (trP trH : String → Option String) (s path : String) (st : WalkSt) :
    Json × WalkSt :=
  let m := isMarkupGui s
  let st1 := logCall st path s m
  match (if m then trH s else trP s) with
  | none => (.str s, st1)
  | some t => (.str (if (pstrip t).length < 3 then s else t), addFlag st1 path)

/-- Translation of the `text` field of one element of an `answers` array
(`translate_h5p_gui.py`, lines 396-410): on success with stripped
length at least 3 the new text is accepted and the sub-path flagged;
a too-short result or an exception leaves the field untouched and,
unlike `guiFieldStep`, does not flag the sub-path. -/
def guiAnswerTextStep (trP trH : String → Option String) (s subPath : String) (st : WalkSt) :
    Option String × WalkSt :=
  let m := isMarkupGui s
  let st1 := logCall st subPath s m
  match (if m then trH s else trP s) with
  | none => (none, st1)
  | some t =>
    if 3 ≤ (pstrip t).length then (some t, addFlag st1 subPath) else (none, st1)

/-- Translation of a bare string element of a sequence
(`translate_h5p_gui.py`, lines 440-454): accepted and flagged only when
the stripped result has length at least 3. -/
def guiListItemStep (trP trH : String → Option String) (s path : String) (st : WalkSt) :
    Json × WalkSt :=
  let m := isMarkupGui s
  let st1 := logCall st path s m
  match (if m then trH s else trP s) with
  | none => (.str s, st1)
  | some t =>
    if 3 ≤ (pstrip t).length then (.str t, addFlag st1 path) else (.str s, st1)

/-- Python `"text" in answer` / `answer["text"]` on an association list. -/
def lookupField : List (String × Json) → String → Option Json
  | [], _ => none
  | (k, v) :: rest, key => if k == key then some v else lookupField rest key

/-- Python `answer["text"] = t`: replace the value stored under the first
occurrence of the key. -/
def setField : List (String × Json) → String → Json → List (String × Json)
  | [], _, _ => []
  | (k, v) :: rest, key, nv =>
    if k == key then (k, nv) :: rest else (k, v) :: setField rest key nv

mutual

/-- The GUI document walker `translate_json_fields`
(`translate_h5p_gui.py`, lines 338-454), with the engine `trP`, the
markup path `trH`, the state `st` (flags and call log) and the current
path string.  Scalars other than mappings and sequences are left
untouched. -/
def translate_json_fields (trP trH : String → Option String) (data : Json)
    (st : WalkSt) (currentPath : String) : Json × WalkSt :=
  match data with
  | .obj fields =>
    let r := tjfFields trP trH fields st currentPath
    (.obj r.1, r.2)
  | .arr items =>
    let r := tjfItems trP trH items 0 st currentPath
    (.arr r.1, r.2)
  | d => (d, st)

/-- Processing of one unflagged `(key, value)` pair of a mapping
(`translate_h5p_gui.py`, lines 362-433): a non-empty string under a
translatable key is translated; an `answers` list gets the specialised
handler; a `questions` list is recursed element-wise; any other mapping
or sequence value is recursed with the extended path; remaining
scalars are left untouched. -/
def tjfValue (trP trH : String → Option String) (k : String) (v : Json)
    (st : WalkSt) (path : String) : Json × WalkSt :=
  match v with
  | .str s =>
    if translatableKeys.contains k && (pstrip s != "") then
      guiFieldStep trP trH s path st
    else (.str s, st)
  | .arr items =>
    if k == "answers" then
      let r := tjfAnswers trP trH items 0 st path
      (.arr r.1, r.2)
    else if k == "questions" then
      let r := tjfQuestions trP trH items 0 st path
      (.arr r.1, r.2)
    else
      let r := tjfItems trP trH items 0 st path
      (.arr r.1, r.2)
  | .obj fs =>
    let r := tjfFields trP trH fs st path
    (.obj r.1, r.2)
  | sc => (sc, st)

/-- The dictionary loop of the GUI walker (`translate_h5p_gui.py`, lines
352-433).  For each key in document order the path is extended; a
flagged path is skipped entirely (its value kept as is), otherwise the
pair is processed by `tjfValue`. -/
def tjfFields (trP trH : String → Option String) (fields : List (String × Json))
    (st : WalkSt) (currentPath : String) : List (String × Json) × WalkSt :=
  match fields with
  | [] => ([], st)
  | (k, v) :: rest =>
    let path := currentPath ++ "/" ++ k
    let r1 : Json × WalkSt :=
      if st.flags.contains path then (v, st)
      else tjfValue trP trH k v st path
    let r2 := tjfFields trP trH rest r1.2 currentPath
    ((k, r1.1) :: r2.1, r2.2)

/-- One element of an `answers` array (`translate_h5p_gui.py`, lines
389-419).  For a dictionary element its `text` field is translated
first (flagging the sub-path on success) and the element is then
recursed as a whole; the recursion skips the just-flagged sub-path, so
writing the accepted translation back after the recursion is equivalent
to Python's in-place write before it.  Non-dictionary elements are left
untouched. -/
def tjfAnswerItem (trP trH : String → Option String) (a : Json)
    (st : WalkSt) (itemPath : String) : Json × WalkSt :=
  match a with
  | .obj fs =>
    let subPath := itemPath ++ "/text"
    let tRes : Option String × WalkSt :=
      match lookupField fs "text" with
      | none => (none, st)
      | some tv =>
        if st.flags.contains subPath then (none, st)
        else
          match tv with
          | .str s =>
            if pstrip s != "" then guiAnswerTextStep trP trH s subPath st
            else (none, st)
          | _ => (none, st)
    let rRec := tjfFields trP trH fs tRes.2 itemPath
    let patched : List (String × Json) :=
      match tRes.1 with
      | some t => setField rRec.1 "text" (.str t)
      | none => rRec.1
    (.obj patched, rRec.2)
  | x => (x, st)

/-- The `answers` handler loop (`translate_h5p_gui.py`, lines 383-420). -/
def tjfAnswers (trP trH : String → Option String) (items : List Json) (idx : Nat)
    (st : WalkSt) (answersPath : String) : List Json × WalkSt :=
  match items with
  | [] => ([], st)
  | a :: rest =>
    let itemPath := answersPath ++ "[" ++ toString idx ++ "]"
    let r1 := tjfAnswerItem trP trH a st itemPath
    let r2 := tjfAnswers trP trH rest (idx + 1) r1.2 answersPath
    (r1.1 :: r2.1, r2.2)

/-- The `questions` handler (`translate_h5p_gui.py`, lines 423-429):
each element is recursed as a full sub-document. -/
def tjfQuestions (trP trH : String → Option String) (items : List Json) (idx : Nat)
    (st : WalkSt) (questionsPath : String) : List Json × WalkSt :=
  match items with
  | [] => ([], st)
  | q :: rest =>
    let qPath := questionsPath ++ "[" ++ toString idx ++ "]"
    let r1 := translate_json_fields trP trH q st qPath
    let r2 := tjfQuestions trP trH rest (idx + 1) r1.2 questionsPath
    (r1.1 :: r2.1, r2.2)

/-- The sequence loop of the GUI walker (`translate_h5p_gui.py`, lines
435-454): containers are recursed with the path extended by the index;
a bare string element whose path is unflagged is translated directly;
other scalars are left untouched. -/
def tjfItems (trP trH : String → Option String) (items : List Json) (idx : Nat)
    (st : WalkSt) (currentPath : String) : List Json × WalkSt :=
  match items with
  | [] => ([], st)
  | x :: rest =>
    let path := currentPath ++ "[" ++ toString idx ++ "]"
    let r1 : Json × WalkSt :=
      match x with
      | .str s =>
        if st.flags.contains path then (.str s, st)
        else guiListItemStep trP trH s path st
      | .obj fs =>
        let r := translate_json_fields trP trH (.obj fs) st path
        r
      | .arr xs =>
        let r := translate_json_fields trP trH (.arr xs) st path
        r
      | sc => (sc, st)
    let r2 := tjfItems trP trH rest (idx + 1) r1.2 currentPath
    (r1.1 :: r2.1, r2.2)

end

mutual

/-- The CLI document walker `translate_json_fields` of `translate_h5p.py`
(lines 47-69), which keeps no visited set and applies no quality gate.
The call log records `(input, markup?)` pairs for the attempted leaves. -/
def translate_json_fields_cli (trP trH : String → Option String) (data : Json)
    (calls : List (String × Bool)) : Json × List (String × Bool) :=
  match data with
  | .obj fields =>
    let r := cliFields trP trH fields calls
    (.obj r.1, r.2)
  | .arr items =>
    let r := cliItems trP trH items calls
    (.arr r.1, r.2)
  | d => (d, calls)

/-- Processing of one `(key, value)` pair by the CLI walker
(`translate_h5p.py`, lines 53-65): a string under a translatable key is
translated (markup test `"<" in value and "</" in value`), an engine
exception keeping the original; every other value is recursed, which
leaves strings under other keys and scalars untouched. -/
def cliValue (trP trH : String → Option String) (k : String) (v : Json)
    (calls : List (String × Bool)) : Json × List (String × Bool) :=
  match v with
  | .str s =>
    if cliTranslatableKeys.contains k then
      let m := hasChar '<' s && hasLtSlash s
      let c1 := calls ++ [(s, m)]
      match (if m then trH s else trP s) with
      | none => (.str s, c1)
      | some t => (.str t, c1)
    else (.str s, calls)
  | .obj fs =>
    let r := cliFields trP trH fs calls
    (.obj r.1, r.2)
  | .arr xs =>
    let r := cliItems trP trH xs calls
    (.arr r.1, r.2)
  | sc => (sc, calls)

/-- Dictionary loop of the CLI walker (`translate_h5p.py`, lines 52-65). -/
def cliFields (trP trH : String → Option String) (fields : List (String × Json))
    (calls : List (String × Bool)) : List (String × Json) × List (String × Bool) :=
  match fields with
  | [] => ([], calls)
  | (k, v) :: rest =>
    let r1 := cliValue trP trH k v calls
    let r2 := cliFields trP trH rest r1.2
    ((k, r1.1) :: r2.1, r2.2)

/-- Sequence loop of the CLI walker (`translate_h5p.py`, lines 67-69):
plain recursion into every element, which translates nothing at the
sequence level. -/
def cliItems (trP trH : String → Option String) (items : List Json)
    (calls : List (String × Bool)) : List Json × List (String × Bool) :=
  match items with
  | [] => ([], calls)
  | x :: rest =>
    let r1 := translate_json_fields_cli trP trH x calls
    let r2 := cliItems trP trH rest r1.2
    (r1.1 :: r2.1, r2.2)

end

/-- Sentence-terminal punctuation recognised by the chunker's
`re.split` pattern `([.!?]+)` (`translate_h5p_gui.py`, line 53). -/
def isPunct (c : Char) : Bool := c == '.' || c == '!' || c == '?'

/-- Group a character list into maximal runs of punctuation /
non-punctuation characters, in order. -/
def groupRuns : List Char → List (List Char)
  | [] => []
  | c :: cs =>
    match groupRuns cs with
    | [] => [[c]]
    | [] :: rest => [c] :: rest
    | (d :: ds) :: rest =>
      if isPunct c == isPunct d then (c :: d :: ds) :: rest
      else [c] :: (d :: ds) :: rest

/-- Class of a run: `true` when it is a punctuation run. -/
def runIsPunct : List Char → Bool
  | [] => false
  | c :: _ => isPunct c

/-- Interleave the runs the way `re.split` with one captured group
reports them: text piece, separator, text piece, ..., text piece, with
empty text pieces at the ends when the string starts or ends with a
separator. -/
def altAssemble : List (List Char) → List String
  | [] => [""]
  | r :: rest =>
    if runIsPunct r then ("" : String) :: (⟨r⟩ : String) :: altAssemble rest
    else
      (⟨r⟩ : String) ::
        (match rest with
         | [] => []
         | p :: rest2 => (⟨p⟩ : String) :: altAssemble rest2)

/-- Python `re.split(r'([.!?]+)', text)`. -/
def reSplitPunct (s : String) : List String := altAssemble (groupRuns s.data)

/-- The chunker's pairing loop index step (`translate_h5p_gui.py`, lines
57-60): each text piece is rejoined with the punctuation that follows
it, the final piece getting an empty punctuation. -/
def pairUp : List String → List String
  | [] => []
  | [s] => [s]
  | s :: p :: rest => (s ++ p) :: pairUp rest

/-- `max_input_length = 200` (`translate_h5p_gui.py`, line 50). -/
def max_input_length : Nat := 200

/-- The greedy accumulation loop of `translate_local_ai`
(`translate_h5p_gui.py`, lines 55-73), emitting translated chunks in
order: when the buffer plus the pending sentence would exceed the
budget, a non-empty buffer is flushed and the pending sentence starts
the new buffer, while with an empty buffer the (over-long) sentence is
sent untruncated as its own chunk. -/
def chunkParts (tsc : String → String) : List String → String → List String
  | [], cur => if cur != "" then [tsc (pstrip cur)] else []
  | full :: rest, cur =>
    if max_input_length < (cur ++ full).length then
      if cur != "" then tsc (pstrip cur) :: chunkParts tsc rest full
      else tsc (pstrip full) :: chunkParts tsc rest cur
    else chunkParts tsc rest (cur ++ full)

/-- The inputs handed to the per-chunk translator by `chunkParts`, in
call order. -/
def chunkInputs : List String → String → List String
  | [], cur => if cur != "" then [pstrip cur] else []
  | full :: rest, cur =>
    if max_input_length < (cur ++ full).length then
      if cur != "" then pstrip cur :: chunkInputs rest full
      else pstrip full :: chunkInputs rest cur
    else chunkInputs rest (cur ++ full)

/-- The text chunker `translate_local_ai` (`translate_h5p_gui.py`, lines
41-77) over an opaque per-chunk translator `tsc`
(`translate_single_chunk` with the target language fixed): empty or
whitespace-only input is returned as is; input within the budget is
translated directly; longer input is split into sentences, greedily
re-chunked, translated chunk by chunk and joined with single spaces. -/
def translate_local_ai (tsc : String → String) (text : String) : String :=
  if pstrip text = "" then text
  else
    let t := pstrip text
    if max_input_length < t.length then
      String.intercalate " " (chunkParts tsc (pairUp (reSplitPunct t)) "")
    else tsc t

/-- The validation applied by `translate_html_robust` to the results of
its first two strategies (`translate_h5p_gui.py`, lines 308-309 and
322-323): the re-rendered plain text must be non-empty after stripping
and longer than 10 characters.  `getText` stands for
`BeautifulSoup(r, "html.parser").get_text()`. -/
def robustValid (getText : String → String) (r : String) : Bool :=
  (pstrip (getText r) != "") && (10 < (getText r).length)

/-- Tier 3 of `translate_html_robust` (`translate_h5p_gui.py`, lines
330-336): the flatten-and-resegment strategy's result is returned
without validation; only if the strategy itself raises is the original
fragment returned. -/
def robustTier3 (strat3 : String → Option String) (html : String) : String :=
  match strat3 html with
  | some r => r
  | none => html

/-- Tiers 2-3 of `translate_html_robust` (`translate_h5p_gui.py`, lines
316-336): the text-node strategy's result is accepted only when it
validates; otherwise, or when the strategy raises, tier 3 runs. -/
def robustTier2 (getText : String → String) (strat2 strat3 : String → Option String)
    (html : String) : String :=
  match strat2 html with
  | some r => if robustValid getText r then r else robustTier3 strat3 html
  | none => robustTier3 strat3 html

/-- The markup fallback dispatcher `translate_html_robust`
(`translate_h5p_gui.py`, lines 298-336).  The three strategy
implementations (`translate_html_by_element_context`,
`extract_and_translate_text_nodes`, `translate_html_simple_fallback`)
depend on the external HTML parser and are abstracted as function
parameters returning `none` when they raise. -/
def translate_html_robust (getText : String → String)
    (strat1 strat2 strat3 : String → Option String) (html : String) : String :=
  if pstrip html = "" then html
  else
    match strat1 html with
    | some r => if robustValid getText r then r else robustTier2 getText strat2 strat3 html
    | none => robustTier2 getText strat2 strat3 html

/-- The container pipeline `translate_h5p` (`translate_h5p_gui.py`,
lines 569-615), abstracting the file system: `load` stands for the
archive extraction plus `json.load` of `content/content.json` (both
outside any `try`, so a failure propagates), `repack` for the dump and
re-zip step.  The document walker itself catches all per-leaf errors
and is total, so a loaded document always reaches `repack`. -/
def translate_h5p (load : Except String Json) (repack : Json → Except String Unit)
    (trP trH : String → Option String) : Except String Json :=
  match load with
  | .error e => .error e
  | .ok content =>
    let r := translate_json_fields trP trH content initSt "root"
    match repack r.1 with
    | .error e => .error e
    | .ok _ => .ok r.1

mutual

/-- No string value anywhere in the document passes the GUI walker's
markup test, so no translation goes through the markup path. -/
def markupFree : Json → Bool
  | .str s => !(isMarkupGui s)
  | .arr items => markupFreeItems items
  | .obj fields => markupFreeFields fields
  | _ => true

/-- `markupFree` on every element of a sequence. -/
def markupFreeItems : List Json → Bool
  | [] => true
  | x :: rest => markupFree x && markupFreeItems rest

/-- `markupFree` on every value of a mapping. -/
def markupFreeFields : List (String × Json) → Bool
  | [] => true
  | kv :: rest => markupFree kv.2 && markupFreeFields rest

end

mutual

/-- Structural agreement of two documents: the same mapping keys in the
same order, the same sequence lengths and order, equal non-string
leaves, and a string leaf wherever the other document has one. -/
def sameShape : Json → Json → Bool
  | .str _, .str _ => true
  | .num a, .num b => a == b
  | .bool a, .bool b => a == b
  | .null, .null => true
  | .arr xs, .arr ys => sameShapeItems xs ys
  | .obj fs, .obj gs => sameShapeFields fs gs
  | _, _ => false

/-- Pointwise `sameShape` on sequences of equal length. -/
def sameShapeItems : List Json → List Json → Bool
  | [], [] => true
  | x :: xs, y :: ys => sameShape x y && sameShapeItems xs ys
  | _, _ => false

/-- Pointwise key equality and value `sameShape` on mappings. -/
def sameShapeFields : List (String × Json) → List (String × Json) → Bool
  | [], [] => true
  | kv :: xs, lw :: ys => kv.1 == lw.1 && sameShape kv.2 lw.2 && sameShapeFields xs ys
  | _, _ => false

end

/-- The translation request a leaf step dispatches. -/
def stepTr (trP trH : String → Option String) (s : String) : Option String :=
  if isMarkupGui s then trH s else trP s

/-- The translation request the CLI walker dispatches for a leaf. -/
def cliStepTr (trP trH : String → Option String) (s : String) : Option String :=
  if hasChar '<' s && hasLtSlash s then trH s else trP s

/-- Relation between walker states across one processing step: flagged
paths persist, and any call present afterwards either was there before
or targets a path that was unflagged at the start of the step.  This is
the formal rendering of the VisitedSet invariant: a step never issues a
translation request for a path already flagged when it starts. -/
def WalkStep (st st' : WalkSt) : Prop :=
  (∀ p, p ∈ st.flags → p ∈ st'.flags) ∧
  (∀ e, e ∈ st'.calls → e ∈ st.calls ∨ e.path ∉ st.flags)

/-- Field access on a mapping document (`null` when absent). -/
def getFieldJ (j : Json) (k : String) : Json :=
  match j with
  | .obj fs => (lookupField fs k).getD .null
  | _ => .null

/-- Index access on a sequence document (`null` when absent). -/
def atIdx (j : Json) (i : Nat) : Json :=
  match j with
  | .arr xs => xs.getD i .null
  | _ => .null

/-- The string stored in a string leaf (empty for other values). -/
def asStr (j : Json) : String :=
  match j with
  | .str s => s
  | _ => ""

/-- The uppercasing translator stub of the spec's end-to-end scenario. -/
def upcaseTr : String → Option String := fun s => some (pyUpper s)

/-- The end-to-end input document of the spec's scenario. -/
def fixtureC1 : Json :=
  .obj [("text", .str "Turn on the power."),
        ("irrelevant", .str "skip me"),
        ("answers", .arr [.obj [("text", .str "Yes")], .obj [("text", .str "No")]])]

/-- First sentence body of the three-sentence chunker fixture. -/
def fxA : String := ⟨List.replicate 98 'a'⟩

/-- Second sentence body of the three-sentence chunker fixture. -/
def fxB : String := ⟨List.replicate 98 'b'⟩

/-- Third sentence body of the three-sentence chunker fixture. -/
def fxC : String := ⟨List.replicate 98 'c'⟩

/-- A 299-character plain text of three sentences, each within the
200-character budget, whose total exceeds it. -/
def fxText : String := fxA ++ ". " ++ fxB ++ ". " ++ fxC ++ "."

/-- Strong induction on the size of a `Json` value. -/
theorem json_size_ind (P : Json → Prop)
    (step : ∀ d, (∀ e, sizeOf e < sizeOf d → P e) → P d) : ∀ d, P d := by
  have H : ∀ n (d : Json), sizeOf d < n → P d := by
    intro n
    induction n with
    | zero => intro d h; omega
    | succ n ih => intro d h; exact step d fun e he => ih e (by omega)
  exact fun d => H (sizeOf d + 1) d (by omega)

/-- Member-wise induction on a `Json` value. -/
theorem json_mem_ind (P : Json → Prop)
    (hstr : ∀ s, P (.str s)) (hnum : ∀ n, P (.num n))
    (hbool : ∀ b, P (.bool b)) (hnull : P .null)
    (harr : ∀ xs, (∀ x ∈ xs, P x) → P (.arr xs))
    (hobj : ∀ fs, (∀ kv ∈ fs, P kv.2) → P (.obj fs)) : ∀ d, P d := by
  apply json_size_ind
  intro d IH
  match d with
  | .str s => exact hstr s
  | .num n => exact hnum n
  | .bool b => exact hbool b
  | .null => exact hnull
  | .arr xs =>
    refine harr xs fun x hx => IH x ?_
    have := List.sizeOf_lt_of_mem hx
    simp only [Json.arr.sizeOf_spec]
    omega
  | .obj fs =>
    refine hobj fs fun kv hkv => IH kv.2 ?_
    have h1 := List.sizeOf_lt_of_mem hkv
    obtain ⟨k, v⟩ := kv
    simp only [Prod.mk.sizeOf_spec] at h1
    simp only [Json.obj.sizeOf_spec]
    omega

/-- Pointwise reflexivity for sequences, given it on the elements. -/
theorem sameShapeItems_refl_of (xs : List Json)
    (h : ∀ x ∈ xs, sameShape x x = true) : sameShapeItems xs xs = true := by
  induction xs with
  | nil => rfl
  | cons x rest ih =>
    simp only [sameShapeItems, Bool.and_eq_true]
    exact ⟨h x (by simp), ih fun y hy => h y (by simp [hy])⟩

/-- Pointwise reflexivity for mappings, given it on the values. -/
theorem sameShapeFields_refl_of (fs : List (String × Json))
    (h : ∀ kv ∈ fs, sameShape kv.2 kv.2 = true) : sameShapeFields fs fs = true := by
  induction fs with
  | nil => rfl
  | cons kv rest ih =>
    simp only [sameShapeFields, Bool.and_eq_true]
    exact ⟨⟨by simp, h kv (by simp)⟩, ih fun y hy => h y (by simp [hy])⟩

/-- `sameShape` is reflexive. -/
theorem sameShape_refl : ∀ d, sameShape d d = true := by
  apply json_mem_ind
  case hstr => intro s; rfl
  case hnum => intro n; simp [sameShape]
  case hbool => intro b; simp [sameShape]
  case hnull => rfl
  case harr => intro xs h; simpa [sameShape] using sameShapeItems_refl_of xs h
  case hobj => intro fs h; simpa [sameShape] using sameShapeFields_refl_of fs h

/-- Writing back the value already stored under a key is a no-op. -/
theorem setField_self : ∀ (fs : List (String × Json)) (k : String) (v : Json),
    lookupField fs k = some v → setField fs k v = fs := by
  intro fs
  induction fs with
  | nil => intro k v h; simp [lookupField] at h
  | cons kv rest ih =>
    intro k v h
    obtain ⟨k1, v1⟩ := kv
    simp only [lookupField] at h
    by_cases hk : (k1 == k) = true
    · simp only [hk, if_true] at h
      simp only [setField, hk, if_true]
      simp at h
      rw [h]
    · simp only [Bool.not_eq_true] at hk
      simp only [hk, Bool.false_eq_true, if_false] at h
      simp only [setField, hk, Bool.false_eq_true, if_false]
      rw [ih k v h]

/-- Replacing the value under a key whose original value is a string with
another string preserves pointwise shape agreement. -/
theorem sameShapeFields_setField :
    ∀ (fs gs : List (String × Json)) (k s t : String),
    sameShapeFields fs gs = true → lookupField fs k = some (.str s) →
    sameShapeFields fs (setField gs k (.str t)) = true := by
  intro fs
  induction fs with
  | nil => intro gs k s t hs hl; simp [lookupField] at hl
  | cons kv rest ih =>
    intro gs k s t hs hl
    obtain ⟨k1, v1⟩ := kv
    cases gs with
    | nil => simp [sameShapeFields] at hs
    | cons lw gr =>
      obtain ⟨k2, v2⟩ := lw
      simp only [sameShapeFields, Bool.and_eq_true] at hs
      obtain ⟨⟨hk12, hv12⟩, hrest⟩ := hs
      simp only [lookupField] at hl
      by_cases hk : (k1 == k) = true
      · simp only [hk, if_true] at hl
        simp at hl
        subst hl
        have hk2 : (k2 == k) = true := by
          simp at hk12 hk ⊢; rw [← hk12]; exact hk
        simp only [setField, hk2, if_true]
        simp only [sameShapeFields, Bool.and_eq_true]
        refine ⟨⟨hk12, ?_⟩, hrest⟩
        cases v2 with
        | str u => rfl
        | num n => simp [sameShape] at hv12
        | bool b => simp [sameShape] at hv12
        | null => simp [sameShape] at hv12
        | arr xs => simp [sameShape] at hv12
        | obj fs2 => simp [sameShape] at hv12
      · simp only [Bool.not_eq_true] at hk
        simp only [hk, Bool.false_eq_true, if_false] at hl
        have hk2 : (k2 == k) = false := by
          simp at hk12 ⊢
          rw [← hk12]
          simpa using hk
        simp only [setField, hk2, Bool.false_eq_true, if_false]
        simp only [sameShapeFields, Bool.and_eq_true]
        exact ⟨⟨hk12, hv12⟩, ih gr k s t hrest hl⟩

/-- In a markup-free mapping, any string found by key lookup fails the
markup test. -/
theorem markupFreeFields_lookup :
    ∀ (fs : List (String × Json)) (k s : String),
    markupFreeFields fs = true → lookupField fs k = some (.str s) →
    isMarkupGui s = false := by
  intro fs
  induction fs with
  | nil => intro k s hm hl; simp [lookupField] at hl
  | cons kv rest ih =>
    intro k s hm hl
    obtain ⟨k1, v1⟩ := kv
    simp only [markupFreeFields, Bool.and_eq_true] at hm
    simp only [lookupField] at hl
    by_cases hk : (k1 == k) = true
    · simp only [hk, if_true] at hl
      simp at hl
      subst hl
      have := hm.1
      simp only [markupFree, Bool.not_eq_true'] at this
      exact this
    · simp only [Bool.not_eq_true] at hk
      simp only [hk, Bool.false_eq_true, if_false] at hl
      exact ih k s hm.2 hl

/-- Stripping never lengthens a string. -/
theorem pstrip_length_le (s : String) : (pstrip s).length ≤ s.length := by
  show (((s.data.dropWhile Char.isWhitespace).reverse.dropWhile Char.isWhitespace).reverse).length ≤ s.data.length
  rw [List.length_reverse]
  calc ((s.data.dropWhile Char.isWhitespace).reverse.dropWhile Char.isWhitespace).length
      ≤ (s.data.dropWhile Char.isWhitespace).reverse.length :=
        (List.dropWhile_sublist _).length_le
    _ = (s.data.dropWhile Char.isWhitespace).length := List.length_reverse _
    _ ≤ s.data.length := (List.dropWhile_sublist _).length_le

/-- A leaf step keeps the original value whenever the engine raises,
returns the input unchanged, or returns something the quality gate
rejects. -/
theorem guiFieldStep_fst_keep (trP trH : String → Option String) (s path : String)
    (st : WalkSt) (hm : isMarkupGui s = false)
    (hk : trP s = none ∨ trP s = some s ∨ ∃ t, trP s = some t ∧ (pstrip t).length < 3) :
    (guiFieldStep trP trH s path st).1 = .str s := by
  rcases hk with h | h | ⟨t, h, hlen⟩
  · simp only [guiFieldStep, hm, Bool.false_eq_true, if_false, h]
  · simp only [guiFieldStep, hm, Bool.false_eq_true, if_false, h]
    split <;> rfl
  · simp only [guiFieldStep, hm, Bool.false_eq_true, if_false, h]
    rw [if_pos hlen]

/-- An answers-text step accepts nothing new under the same conditions:
it yields either no update or the original string. -/
theorem guiAnswerTextStep_fst_keep (trP trH : String → Option String) (s subPath : String)
    (st : WalkSt) (hm : isMarkupGui s = false)
    (hk : trP s = none ∨ trP s = some s ∨ ∃ t, trP s = some t ∧ (pstrip t).length < 3) :
    (guiAnswerTextStep trP trH s subPath st).1 = none ∨
      (guiAnswerTextStep trP trH s subPath st).1 = some s := by
  rcases hk with h | h | ⟨t, h, hlen⟩
  · left
    simp only [guiAnswerTextStep, hm, Bool.false_eq_true, if_false, h]
  · simp only [guiAnswerTextStep, hm, Bool.false_eq_true, if_false, h]
    split
    · right; rfl
    · left; rfl
  · left
    simp only [guiAnswerTextStep, hm, Bool.false_eq_true, if_false, h]
    rw [if_neg (by omega)]

/-- A bare-list-item step keeps the original value under the same
conditions. -/
theorem guiListItemStep_fst_keep (trP trH : String → Option String) (s path : String)
    (st : WalkSt) (hm : isMarkupGui s = false)
    (hk : trP s = none ∨ trP s = some s ∨ ∃ t, trP s = some t ∧ (pstrip t).length < 3) :
    (guiListItemStep trP trH s path st).1 = .str s := by
  rcases hk with h | h | ⟨t, h, hlen⟩
  · simp only [guiListItemStep, hm, Bool.false_eq_true, if_false, h]
  · simp only [guiListItemStep, hm, Bool.false_eq_true, if_false, h]
    split <;> rfl
  · simp only [guiListItemStep, hm, Bool.false_eq_true, if_false, h]
    rw [if_neg (by omega)]

/-- Master preservation lemma: if the engine only ever raises, returns
its input unchanged, or returns output rejected by the quality gate,
then on markup-free data every entry point of the GUI walker returns
the document part unchanged. -/
theorem preserveAll (trP trH : String → Option String)
    (hkeep : ∀ s, trP s = none ∨ trP s = some s ∨ ∃ t, trP s = some t ∧ (pstrip t).length < 3) :
    ∀ n : Nat,
      (∀ d st cur, sizeOf d ≤ n → markupFree d = true →
        (translate_json_fields trP trH d st cur).1 = d) ∧
      (∀ k v st path, sizeOf v ≤ n → markupFree v = true →
        (tjfValue trP trH k v st path).1 = v) ∧
      (∀ fs st cur, sizeOf fs ≤ n → markupFreeFields fs = true →
        (tjfFields trP trH fs st cur).1 = fs) ∧
      (∀ a st ip, sizeOf a ≤ n → markupFree a = true →
        (tjfAnswerItem trP trH a st ip).1 = a) ∧
      (∀ xs idx st p, sizeOf xs ≤ n → markupFreeItems xs = true →
        (tjfAnswers trP trH xs idx st p).1 = xs) ∧
      (∀ xs idx st p, sizeOf xs ≤ n → markupFreeItems xs = true →
        (tjfQuestions trP trH xs idx st p).1 = xs) ∧
      (∀ xs idx st p, sizeOf xs ≤ n → markupFreeItems xs = true →
        (tjfItems trP trH xs idx st p).1 = xs) := by
  intro n
  induction n using Nat.strong_induction_on with
  | _ n IH =>
    refine ⟨?_, ?_, ?_, ?_, ?_, ?_, ?_⟩
    · -- translate_json_fields
      intro d st cur hs hm
      cases d with
      | str s => rfl
      | num m => rfl
      | bool b => rfl
      | null => rfl
      | arr xs =>
        have hm' : markupFreeItems xs = true := by simpa [markupFree] using hm
        have hsz : sizeOf xs < n := by simp only [Json.arr.sizeOf_spec] at hs; omega
        have h7 := ((IH (sizeOf xs) hsz).2.2.2.2.2.2) xs 0 st cur (le_refl _) hm'
        show Json.arr (tjfItems trP trH xs 0 st cur).1 = Json.arr xs
        rw [h7]
      | obj fs =>
        have hm' : markupFreeFields fs = true := by simpa [markupFree] using hm
        have hsz : sizeOf fs < n := by simp only [Json.obj.sizeOf_spec] at hs; omega
        have h3 := ((IH (sizeOf fs) hsz).2.2.1) fs st cur (le_refl _) hm'
        show Json.obj (tjfFields trP trH fs st cur).1 = Json.obj fs
        rw [h3]
    · -- tjfValue
      intro k v st path hs hm
      cases v with
      | str s =>
        simp only [tjfValue]
        split
        · have hm' : isMarkupGui s = false := by
            simpa [markupFree, Bool.not_eq_true'] using hm
          exact guiFieldStep_fst_keep trP trH s path st hm' (hkeep s)
        · rfl
      | arr items =>
        have hm' : markupFreeItems items = true := by simpa [markupFree] using hm
        have hsz : sizeOf items < n := by simp only [Json.arr.sizeOf_spec] at hs; omega
        simp only [tjfValue]
        split
        · show Json.arr (tjfAnswers trP trH items 0 st path).1 = Json.arr items
          rw [((IH (sizeOf items) hsz).2.2.2.2.1) items 0 st path (le_refl _) hm']
        · split
          · show Json.arr (tjfQuestions trP trH items 0 st path).1 = Json.arr items
            rw [((IH (sizeOf items) hsz).2.2.2.2.2.1) items 0 st path (le_refl _) hm']
          · show Json.arr (tjfItems trP trH items 0 st path).1 = Json.arr items
            rw [((IH (sizeOf items) hsz).2.2.2.2.2.2) items 0 st path (le_refl _) hm']
      | obj fs =>
        have hm' : markupFreeFields fs = true := by simpa [markupFree] using hm
        have hsz : sizeOf fs < n := by simp only [Json.obj.sizeOf_spec] at hs; omega
        show Json.obj (tjfFields trP trH fs st path).1 = Json.obj fs
        rw [((IH (sizeOf fs) hsz).2.2.1) fs st path (le_refl _) hm']
      | num m => rfl
      | bool b => rfl
      | null => rfl
    · -- tjfFields
      intro fs st cur hs hm
      cases fs with
      | nil => rfl
      | cons kv rest =>
        obtain ⟨k, v⟩ := kv
        simp only [markupFreeFields, Bool.and_eq_true] at hm
        obtain ⟨hmv, hmr⟩ := hm
        have hsv : sizeOf v < n := by
          simp only [List.cons.sizeOf_spec, Prod.mk.sizeOf_spec] at hs; omega
        have hsr : sizeOf rest < n := by
          simp only [List.cons.sizeOf_spec] at hs; omega
        have hrest : ∀ st', (tjfFields trP trH rest st' cur).1 = rest := fun st' =>
          ((IH (sizeOf rest) hsr).2.2.1) rest st' cur (le_refl _) hmr
        simp only [tjfFields]
        by_cases hc : (st.flags.contains (cur ++ "/" ++ k)) = true
        · simp only [hc, if_true]
          show (k, v) :: (tjfFields trP trH rest st cur).1 = (k, v) :: rest
          rw [hrest]
        · simp only [hc, Bool.false_eq_true, if_false]
          have hv := ((IH (sizeOf v) hsv).2.1) k v st (cur ++ "/" ++ k) (le_refl _) hmv
          show (k, (tjfValue trP trH k v st (cur ++ "/" ++ k)).1) ::
              (tjfFields trP trH rest (tjfValue trP trH k v st (cur ++ "/" ++ k)).2 cur).1 =
            (k, v) :: rest
          rw [hv, hrest]
    · -- tjfAnswerItem
      intro a st ip hs hm
      cases a with
      | obj fs =>
        have hmf : markupFreeFields fs = true := by simpa [markupFree] using hm
        have hsf : sizeOf fs < n := by simp only [Json.obj.sizeOf_spec] at hs; omega
        have hrec : ∀ st', (tjfFields trP trH fs st' ip).1 = fs := fun st' =>
          ((IH (sizeOf fs) hsf).2.2.1) fs st' ip (le_refl _) hmf
        simp only [tjfAnswerItem]
        rcases hl : lookupField fs "text" with _ | tv
        · simp only [hl]
          show Json.obj (tjfFields trP trH fs st ip).1 = Json.obj fs
          rw [hrec]
        · simp only [hl]
          by_cases hcf : (st.flags.contains (ip ++ "/text")) = true
          · simp only [hcf, if_true]
            show Json.obj (tjfFields trP trH fs st ip).1 = Json.obj fs
            rw [hrec]
          · simp only [hcf, Bool.false_eq_true, if_false]
            cases tv with
            | str s =>
              by_cases hne : (pstrip s != "") = true
              · simp only [hne, if_true]
                have hms : isMarkupGui s = false := markupFreeFields_lookup fs "text" s hmf hl
                rcases guiAnswerTextStep_fst_keep trP trH s (ip ++ "/text") st hms (hkeep s)
                  with hopt | hopt
                · simp only [hopt]
                  show Json.obj (tjfFields trP trH fs
                      (guiAnswerTextStep trP trH s (ip ++ "/text") st).2 ip).1 = Json.obj fs
                  rw [hrec]
                · simp only [hopt]
                  show Json.obj (setField (tjfFields trP trH fs
                      (guiAnswerTextStep trP trH s (ip ++ "/text") st).2 ip).1 "text"
                      (Json.str s)) = Json.obj fs
                  rw [hrec, setField_self fs "text" (Json.str s) hl]
              · simp only [hne, Bool.false_eq_true, if_false]
                show Json.obj (tjfFields trP trH fs st ip).1 = Json.obj fs
                rw [hrec]
            | num m =>
              simp only []
              show Json.obj (tjfFields trP trH fs st ip).1 = Json.obj fs
              rw [hrec]
            | bool b =>
              show Json.obj (tjfFields trP trH fs st ip).1 = Json.obj fs
              rw [hrec]
            | null =>
              show Json.obj (tjfFields trP trH fs st ip).1 = Json.obj fs
              rw [hrec]
            | arr xs =>
              show Json.obj (tjfFields trP trH fs st ip).1 = Json.obj fs
              rw [hrec]
            | obj fs2 =>
              show Json.obj (tjfFields trP trH fs st ip).1 = Json.obj fs
              rw [hrec]
      | str s => rfl
      | num m => rfl
      | bool b => rfl
      | null => rfl
      | arr xs => rfl
    · -- tjfAnswers
      intro xs idx st p hs hm
      cases xs with
      | nil => rfl
      | cons a rest =>
        simp only [markupFreeItems, Bool.and_eq_true] at hm
        obtain ⟨hma, hmr⟩ := hm
        have hsa : sizeOf a < n := by simp only [List.cons.sizeOf_spec] at hs; omega
        have hsr : sizeOf rest < n := by simp only [List.cons.sizeOf_spec] at hs; omega
        have h4 := ((IH (sizeOf a) hsa).2.2.2.1) a st (p ++ "[" ++ toString idx ++ "]")
          (le_refl _) hma
        have h5 := fun st' => ((IH (sizeOf rest) hsr).2.2.2.2.1) rest (idx + 1) st' p
          (le_refl _) hmr
        simp only [tjfAnswers]
        show (tjfAnswerItem trP trH a st (p ++ "[" ++ toString idx ++ "]")).1 ::
            (tjfAnswers trP trH rest (idx + 1)
              (tjfAnswerItem trP trH a st (p ++ "[" ++ toString idx ++ "]")).2 p).1 =
          a :: rest
        rw [h4, h5]
    · -- tjfQuestions
      intro xs idx st p hs hm
      cases xs with
      | nil => rfl
      | cons q rest =>
        simp only [markupFreeItems, Bool.and_eq_true] at hm
        obtain ⟨hmq, hmr⟩ := hm
        have hsq : sizeOf q < n := by simp only [List.cons.sizeOf_spec] at hs; omega
        have hsr : sizeOf rest < n := by simp only [List.cons.sizeOf_spec] at hs; omega
        have h1 := ((IH (sizeOf q) hsq).1) q st (p ++ "[" ++ toString idx ++ "]") (le_refl _) hmq
        have h6 := fun st' => ((IH (sizeOf rest) hsr).2.2.2.2.2.1) rest (idx + 1) st' p
          (le_refl _) hmr
        simp only [tjfQuestions]
        show (translate_json_fields trP trH q st (p ++ "[" ++ toString idx ++ "]")).1 ::
            (tjfQuestions trP trH rest (idx + 1)
              (translate_json_fields trP trH q st (p ++ "[" ++ toString idx ++ "]")).2 p).1 =
          q :: rest
        rw [h1, h6]
    · -- tjfItems
      intro xs idx st p hs hm
      cases xs with
      | nil => rfl
      | cons x rest =>
        simp only [markupFreeItems, Bool.and_eq_true] at hm
        obtain ⟨hmx, hmr⟩ := hm
        have hsx : sizeOf x < n := by simp only [List.cons.sizeOf_spec] at hs; omega
        have hsr : sizeOf rest < n := by simp only [List.cons.sizeOf_spec] at hs; omega
        have h7 := fun st' => ((IH (sizeOf rest) hsr).2.2.2.2.2.2) rest (idx + 1) st' p
          (le_refl _) hmr
        cases x with
        | str s =>
          by_cases hc : (st.flags.contains (p ++ "[" ++ toString idx ++ "]")) = true
          · simp only [tjfItems, hc, if_true]
            show Json.str s :: (tjfItems trP trH rest (idx + 1) st p).1 = Json.str s :: rest
            rw [h7]
          · simp only [tjfItems, hc, Bool.false_eq_true, if_false]
            have hms : isMarkupGui s = false := by
              simpa [markupFree, Bool.not_eq_true'] using hmx
            have hstep := guiListItemStep_fst_keep trP trH s (p ++ "[" ++ toString idx ++ "]")
              st hms (hkeep s)
            show (guiListItemStep trP trH s (p ++ "[" ++ toString idx ++ "]") st).1 ::
                (tjfItems trP trH rest (idx + 1)
                  (guiListItemStep trP trH s (p ++ "[" ++ toString idx ++ "]") st).2 p).1 =
              Json.str s :: rest
            rw [hstep, h7]
        | obj fs =>
          have h1 := ((IH _ hsx).1) (Json.obj fs) st (p ++ "[" ++ toString idx ++ "]")
            (le_refl _) hmx
          show (translate_json_fields trP trH (Json.obj fs) st
              (p ++ "[" ++ toString idx ++ "]")).1 ::
              (tjfItems trP trH rest (idx + 1)
                (translate_json_fields trP trH (Json.obj fs) st
                  (p ++ "[" ++ toString idx ++ "]")).2 p).1 =
            Json.obj fs :: rest
          rw [h1, h7]
        | arr ys =>
          have h1 := ((IH _ hsx).1) (Json.arr ys) st (p ++ "[" ++ toString idx ++ "]")
            (le_refl _) hmx
          show (translate_json_fields trP trH (Json.arr ys) st
              (p ++ "[" ++ toString idx ++ "]")).1 ::
              (tjfItems trP trH rest (idx + 1)
                (translate_json_fields trP trH (Json.arr ys) st
                  (p ++ "[" ++ toString idx ++ "]")).2 p).1 =
            Json.arr ys :: rest
          rw [h1, h7]
        | num m =>
          show Json.num m :: (tjfItems trP trH rest (idx + 1) st p).1 = Json.num m :: rest
          rw [h7]
        | bool b =>
          show Json.bool b :: (tjfItems trP trH rest (idx + 1) st p).1 = Json.bool b :: rest
          rw [h7]
        | null =>
          show Json.null :: (tjfItems trP trH rest (idx + 1) st p).1 = Json.null :: rest
          rw [h7]

/-- Folding lemma for the dispatch expression inside the step
functions. -/
theorem stepTr_fold (trP trH : String → Option String) (s : String) :
    (if isMarkupGui s = true then trH s else trP s) = stepTr trP trH s := rfl

/-- A leaf step always writes back a string. -/
theorem guiFieldStep_fst_isStr (trP trH : String → Option String) (s path : String)
    (st : WalkSt) : ∃ u, (guiFieldStep trP trH s path st).1 = .str u := by
  rcases h : stepTr trP trH s with _ | t
  · exact ⟨s, by simp only [guiFieldStep, stepTr_fold, h]⟩
  · exact ⟨if (pstrip t).length < 3 then s else t,
      by simp only [guiFieldStep, stepTr_fold, h]⟩

/-- A bare-list-item step always writes back a string. -/
theorem guiListItemStep_fst_isStr (trP trH : String → Option String) (s path : String)
    (st : WalkSt) : ∃ u, (guiListItemStep trP trH s path st).1 = .str u := by
  rcases h : stepTr trP trH s with _ | t
  · exact ⟨s, by simp only [guiListItemStep, stepTr_fold, h]⟩
  · refine ⟨if 3 ≤ (pstrip t).length then t else s, ?_⟩
    simp only [guiListItemStep, stepTr_fold, h]
    split <;> simp_all

/-- An answers-text step yields no update or some string update. -/
theorem guiAnswerTextStep_fst_cases (trP trH : String → Option String) (s subPath : String)
    (st : WalkSt) : (guiAnswerTextStep trP trH s subPath st).1 = none ∨
      ∃ t, (guiAnswerTextStep trP trH s subPath st).1 = some t := by
  rcases h : stepTr trP trH s with _ | t
  · exact Or.inl (by simp only [guiAnswerTextStep, stepTr_fold, h])
  · simp only [guiAnswerTextStep, stepTr_fold, h]
    split
    · exact Or.inr ⟨t, rfl⟩
    · exact Or.inl rfl

/-- Master shape lemma: every entry point of the GUI walker preserves
the structure of the document — keys, order, sequence lengths,
non-string leaves, and stringness of string leaves — for any engine
and any markup path. -/
theorem shapeAll (trP trH : String → Option String) :
    ∀ n : Nat,
      (∀ d st cur, sizeOf d ≤ n →
        sameShape d (translate_json_fields trP trH d st cur).1 = true) ∧
      (∀ k v st path, sizeOf v ≤ n →
        sameShape v (tjfValue trP trH k v st path).1 = true) ∧
      (∀ fs st cur, sizeOf fs ≤ n →
        sameShapeFields fs (tjfFields trP trH fs st cur).1 = true) ∧
      (∀ a st ip, sizeOf a ≤ n →
        sameShape a (tjfAnswerItem trP trH a st ip).1 = true) ∧
      (∀ xs idx st p, sizeOf xs ≤ n →
        sameShapeItems xs (tjfAnswers trP trH xs idx st p).1 = true) ∧
      (∀ xs idx st p, sizeOf xs ≤ n →
        sameShapeItems xs (tjfQuestions trP trH xs idx st p).1 = true) ∧
      (∀ xs idx st p, sizeOf xs ≤ n →
        sameShapeItems xs (tjfItems trP trH xs idx st p).1 = true) := by
  intro n
  induction n using Nat.strong_induction_on with
  | _ n IH =>
    refine ⟨?_, ?_, ?_, ?_, ?_, ?_, ?_⟩
    · -- translate_json_fields
      intro d st cur hs
      cases d with
      | str s => rfl
      | num m => exact sameShape_refl _
      | bool b => exact sameShape_refl _
      | null => rfl
      | arr xs =>
        have hsz : sizeOf xs < n := by simp only [Json.arr.sizeOf_spec] at hs; omega
        show sameShapeItems xs (tjfItems trP trH xs 0 st cur).1 = true
        exact ((IH (sizeOf xs) hsz).2.2.2.2.2.2) xs 0 st cur (le_refl _)
      | obj fs =>
        have hsz : sizeOf fs < n := by simp only [Json.obj.sizeOf_spec] at hs; omega
        show sameShapeFields fs (tjfFields trP trH fs st cur).1 = true
        exact ((IH (sizeOf fs) hsz).2.2.1) fs st cur (le_refl _)
    · -- tjfValue
      intro k v st path hs
      cases v with
      | str s =>
        simp only [tjfValue]
        split
        · obtain ⟨u, hu⟩ := guiFieldStep_fst_isStr trP trH s path st
          rw [hu]
          rfl
        · rfl
      | arr items =>
        have hsz : sizeOf items < n := by simp only [Json.arr.sizeOf_spec] at hs; omega
        simp only [tjfValue]
        split
        · show sameShapeItems items (tjfAnswers trP trH items 0 st path).1 = true
          exact ((IH (sizeOf items) hsz).2.2.2.2.1) items 0 st path (le_refl _)
        · split
          · show sameShapeItems items (tjfQuestions trP trH items 0 st path).1 = true
            exact ((IH (sizeOf items) hsz).2.2.2.2.2.1) items 0 st path (le_refl _)
          · show sameShapeItems items (tjfItems trP trH items 0 st path).1 = true
            exact ((IH (sizeOf items) hsz).2.2.2.2.2.2) items 0 st path (le_refl _)
      | obj fs =>
        have hsz : sizeOf fs < n := by simp only [Json.obj.sizeOf_spec] at hs; omega
        show sameShapeFields fs (tjfFields trP trH fs st path).1 = true
        exact ((IH (sizeOf fs) hsz).2.2.1) fs st path (le_refl _)
      | num m => exact sameShape_refl _
      | bool b => exact sameShape_refl _
      | null => rfl
    · -- tjfFields
      intro fs st cur hs
      cases fs with
      | nil => rfl
      | cons kv rest =>
        obtain ⟨k, v⟩ := kv
        have hsv : sizeOf v < n := by
          simp only [List.cons.sizeOf_spec, Prod.mk.sizeOf_spec] at hs; omega
        have hsr : sizeOf rest < n := by
          simp only [List.cons.sizeOf_spec] at hs; omega
        have hrest : ∀ st', sameShapeFields rest (tjfFields trP trH rest st' cur).1 = true :=
          fun st' => ((IH (sizeOf rest) hsr).2.2.1) rest st' cur (le_refl _)
        simp only [tjfFields]
        by_cases hc : (st.flags.contains (cur ++ "/" ++ k)) = true
        · simp only [hc, if_true]
          show sameShapeFields ((k, v) :: rest)
            ((k, v) :: (tjfFields trP trH rest st cur).1) = true
          simp only [sameShapeFields, Bool.and_eq_true]
          exact ⟨⟨by simp, sameShape_refl v⟩, hrest st⟩
        · simp only [hc, Bool.false_eq_true, if_false]
          have hv := ((IH (sizeOf v) hsv).2.1) k v st (cur ++ "/" ++ k) (le_refl _)
          show sameShapeFields ((k, v) :: rest)
            ((k, (tjfValue trP trH k v st (cur ++ "/" ++ k)).1) ::
              (tjfFields trP trH rest (tjfValue trP trH k v st (cur ++ "/" ++ k)).2 cur).1) = true
          simp only [sameShapeFields, Bool.and_eq_true]
          exact ⟨⟨by simp, hv⟩, hrest _⟩
    · -- tjfAnswerItem
      intro a st ip hs
      cases a with
      | obj fs =>
        have hsf : sizeOf fs < n := by simp only [Json.obj.sizeOf_spec] at hs; omega
        have hrec : ∀ st', sameShapeFields fs (tjfFields trP trH fs st' ip).1 = true :=
          fun st' => ((IH (sizeOf fs) hsf).2.2.1) fs st' ip (le_refl _)
        simp only [tjfAnswerItem]
        rcases hl : lookupField fs "text" with _ | tv
        · simp only [hl]
          show sameShapeFields fs (tjfFields trP trH fs st ip).1 = true
          exact hrec st
        · simp only [hl]
          by_cases hcf : (st.flags.contains (ip ++ "/text")) = true
          · simp only [hcf, if_true]
            show sameShapeFields fs (tjfFields trP trH fs st ip).1 = true
            exact hrec st
          · simp only [hcf, Bool.false_eq_true, if_false]
            cases tv with
            | str s =>
              by_cases hne : (pstrip s != "") = true
              · simp only [hne, if_true]
                rcases guiAnswerTextStep_fst_cases trP trH s (ip ++ "/text") st
                  with hopt | ⟨t, hopt⟩
                · simp only [hopt]
                  show sameShapeFields fs (tjfFields trP trH fs
                      (guiAnswerTextStep trP trH s (ip ++ "/text") st).2 ip).1 = true
                  exact hrec _
                · simp only [hopt]
                  show sameShapeFields fs (setField (tjfFields trP trH fs
                      (guiAnswerTextStep trP trH s (ip ++ "/text") st).2 ip).1 "text"
                      (Json.str t)) = true
                  exact sameShapeFields_setField fs _ "text" s t (hrec _) hl
              · simp only [hne, Bool.false_eq_true, if_false]
                show sameShapeFields fs (tjfFields trP trH fs st ip).1 = true
                exact hrec st
            | num m =>
              show sameShapeFields fs (tjfFields trP trH fs st ip).1 = true
              exact hrec st
            | bool b =>
              show sameShapeFields fs (tjfFields trP trH fs st ip).1 = true
              exact hrec st
            | null =>
              show sameShapeFields fs (tjfFields trP trH fs st ip).1 = true
              exact hrec st
            | arr xs =>
              show sameShapeFields fs (tjfFields trP trH fs st ip).1 = true
              exact hrec st
            | obj fs2 =>
              show sameShapeFields fs (tjfFields trP trH fs st ip).1 = true
              exact hrec st
      | str s => rfl
      | num m => exact sameShape_refl _
      | bool b => exact sameShape_refl _
      | null => rfl
      | arr xs =>
        show sameShapeItems xs xs = true
        exact sameShapeItems_refl_of xs fun x _ => sameShape_refl x
    · -- tjfAnswers
      intro xs idx st p hs
      cases xs with
      | nil => rfl
      | cons a rest =>
        have hsa : sizeOf a < n := by simp only [List.cons.sizeOf_spec] at hs; omega
        have hsr : sizeOf rest < n := by simp only [List.cons.sizeOf_spec] at hs; omega
        have h4 := ((IH (sizeOf a) hsa).2.2.2.1) a st (p ++ "[" ++ toString idx ++ "]") (le_refl _)
        have h5 := fun st' => ((IH (sizeOf rest) hsr).2.2.2.2.1) rest (idx + 1) st' p (le_refl _)
        show sameShapeItems (a :: rest)
          ((tjfAnswerItem trP trH a st (p ++ "[" ++ toString idx ++ "]")).1 ::
            (tjfAnswers trP trH rest (idx + 1)
              (tjfAnswerItem trP trH a st (p ++ "[" ++ toString idx ++ "]")).2 p).1) = true
        simp only [sameShapeItems, Bool.and_eq_true]
        exact ⟨h4, h5 _⟩
    · -- tjfQuestions
      intro xs idx st p hs
      cases xs with
      | nil => rfl
      | cons q rest =>
        have hsq : sizeOf q < n := by simp only [List.cons.sizeOf_spec] at hs; omega
        have hsr : sizeOf rest < n := by simp only [List.cons.sizeOf_spec] at hs; omega
        have h1 := ((IH (sizeOf q) hsq).1) q st (p ++ "[" ++ toString idx ++ "]") (le_refl _)
        have h6 := fun st' => ((IH (sizeOf rest) hsr).2.2.2.2.2.1) rest (idx + 1) st' p (le_refl _)
        show sameShapeItems (q :: rest)
          ((translate_json_fields trP trH q st (p ++ "[" ++ toString idx ++ "]")).1 ::
            (tjfQuestions trP trH rest (idx + 1)
              (translate_json_fields trP trH q st (p ++ "[" ++ toString idx ++ "]")).2 p).1) = true
        simp only [sameShapeItems, Bool.and_eq_true]
        exact ⟨h1, h6 _⟩
    · -- tjfItems
      intro xs idx st p hs
      cases xs with
      | nil => rfl
      | cons x rest =>
        have hsx : sizeOf x < n := by simp only [List.cons.sizeOf_spec] at hs; omega
        have hsr : sizeOf rest < n := by simp only [List.cons.sizeOf_spec] at hs; omega
        have h7 := fun st' => ((IH (sizeOf rest) hsr).2.2.2.2.2.2) rest (idx + 1) st' p (le_refl _)
        cases x with
        | str s =>
          by_cases hc : (st.flags.contains (p ++ "[" ++ toString idx ++ "]")) = true
          · simp only [tjfItems, hc, if_true]
            show sameShapeItems (Json.str s :: rest)
              (Json.str s :: (tjfItems trP trH rest (idx + 1) st p).1) = true
            simp only [sameShapeItems, Bool.and_eq_true]
            exact ⟨rfl, h7 st⟩
          · simp only [tjfItems, hc, Bool.false_eq_true, if_false]
            obtain ⟨u, hu⟩ := guiListItemStep_fst_isStr trP trH s (p ++ "[" ++ toString idx ++ "]") st
            show sameShapeItems (Json.str s :: rest)
              ((guiListItemStep trP trH s (p ++ "[" ++ toString idx ++ "]") st).1 ::
                (tjfItems trP trH rest (idx + 1)
                  (guiListItemStep trP trH s (p ++ "[" ++ toString idx ++ "]") st).2 p).1) = true
            rw [hu]
            simp only [sameShapeItems, Bool.and_eq_true]
            exact ⟨rfl, h7 _⟩
        | obj fs =>
          have h1 := ((IH _ hsx).1) (Json.obj fs) st (p ++ "[" ++ toString idx ++ "]") (le_refl _)
          show sameShapeItems (Json.obj fs :: rest)
            ((translate_json_fields trP trH (Json.obj fs) st (p ++ "[" ++ toString idx ++ "]")).1 ::
              (tjfItems trP trH rest (idx + 1)
                (translate_json_fields trP trH (Json.obj fs) st
                  (p ++ "[" ++ toString idx ++ "]")).2 p).1) = true
          simp only [sameShapeItems, Bool.and_eq_true]
          exact ⟨h1, h7 _⟩
        | arr ys =>
          have h1 := ((IH _ hsx).1) (Json.arr ys) st (p ++ "[" ++ toString idx ++ "]") (le_refl _)
          show sameShapeItems (Json.arr ys :: rest)
            ((translate_json_fields trP trH (Json.arr ys) st (p ++ "[" ++ toString idx ++ "]")).1 ::
              (tjfItems trP trH rest (idx + 1)
                (translate_json_fields trP trH (Json.arr ys) st
                  (p ++ "[" ++ toString idx ++ "]")).2 p).1) = true
          simp only [sameShapeItems, Bool.and_eq_true]
          exact ⟨h1, h7 _⟩
        | num m =>
          show sameShapeItems (Json.num m :: rest)
            (Json.num m :: (tjfItems trP trH rest (idx + 1) st p).1) = true
          simp only [sameShapeItems, Bool.and_eq_true]
          exact ⟨by simp [sameShape], h7 st⟩
        | bool b =>
          show sameShapeItems (Json.bool b :: rest)
            (Json.bool b :: (tjfItems trP trH rest (idx + 1) st p).1) = true
          simp only [sameShapeItems, Bool.and_eq_true]
          exact ⟨by simp [sameShape], h7 st⟩
        | null =>
          show sameShapeItems (Json.null :: rest)
            (Json.null :: (tjfItems trP trH rest (idx + 1) st p).1) = true
          simp only [sameShapeItems, Bool.and_eq_true]
          exact ⟨rfl, h7 st⟩

/-- Folding lemma for the CLI dispatch expression. -/
theorem cliStepTr_fold (trP trH : String → Option String) (s : String) :
    (if (hasChar '<' s && hasLtSlash s) = true then trH s else trP s) = cliStepTr trP trH s := rfl

/-- The CLI walker writes back a string for every string value. -/
theorem cliValue_str_isStr (trP trH : String → Option String) (k s : String)
    (cs : List (String × Bool)) : ∃ u, (cliValue trP trH k (.str s) cs).1 = .str u := by
  by_cases hk : (cliTranslatableKeys.contains k) = true
  · rcases h : cliStepTr trP trH s with _ | t
    · exact ⟨s, by simp only [cliValue, hk, if_true, cliStepTr_fold, h]⟩
    · exact ⟨t, by simp only [cliValue, hk, if_true, cliStepTr_fold, h]⟩
  · exact ⟨s, by simp only [cliValue, hk, Bool.false_eq_true, if_false]⟩

/-- Master shape lemma for the CLI walker. -/
theorem shapeAllCli (trP trH : String → Option String) :
    ∀ n : Nat,
      (∀ d cs, sizeOf d ≤ n →
        sameShape d (translate_json_fields_cli trP trH d cs).1 = true) ∧
      (∀ k v cs, sizeOf v ≤ n →
        sameShape v (cliValue trP trH k v cs).1 = true) ∧
      (∀ fs cs, sizeOf fs ≤ n →
        sameShapeFields fs (cliFields trP trH fs cs).1 = true) ∧
      (∀ xs cs, sizeOf xs ≤ n →
        sameShapeItems xs (cliItems trP trH xs cs).1 = true) := by
  intro n
  induction n using Nat.strong_induction_on with
  | _ n IH =>
    refine ⟨?_, ?_, ?_, ?_⟩
    · intro d cs hs
      cases d with
      | str s => rfl
      | num m => exact sameShape_refl _
      | bool b => exact sameShape_refl _
      | null => rfl
      | arr xs =>
        have hsz : sizeOf xs < n := by simp only [Json.arr.sizeOf_spec] at hs; omega
        show sameShapeItems xs (cliItems trP trH xs cs).1 = true
        exact ((IH (sizeOf xs) hsz).2.2.2) xs cs (le_refl _)
      | obj fs =>
        have hsz : sizeOf fs < n := by simp only [Json.obj.sizeOf_spec] at hs; omega
        show sameShapeFields fs (cliFields trP trH fs cs).1 = true
        exact ((IH (sizeOf fs) hsz).2.2.1) fs cs (le_refl _)
    · intro k v cs hs
      cases v with
      | str s =>
        obtain ⟨u, hu⟩ := cliValue_str_isStr trP trH k s cs
        rw [hu]
        rfl
      | num m => exact sameShape_refl _
      | bool b => exact sameShape_refl _
      | null => rfl
      | arr xs =>
        have hsz : sizeOf xs < n := by simp only [Json.arr.sizeOf_spec] at hs; omega
        show sameShapeItems xs (cliItems trP trH xs cs).1 = true
        exact ((IH (sizeOf xs) hsz).2.2.2) xs cs (le_refl _)
      | obj fs =>
        have hsz : sizeOf fs < n := by simp only [Json.obj.sizeOf_spec] at hs; omega
        show sameShapeFields fs (cliFields trP trH fs cs).1 = true
        exact ((IH (sizeOf fs) hsz).2.2.1) fs cs (le_refl _)
    · intro fs cs hs
      cases fs with
      | nil => rfl
      | cons kv rest =>
        obtain ⟨k, v⟩ := kv
        have hsv : sizeOf v < n := by
          simp only [List.cons.sizeOf_spec, Prod.mk.sizeOf_spec] at hs; omega
        have hsr : sizeOf rest < n := by
          simp only [List.cons.sizeOf_spec] at hs; omega
        have hv := ((IH (sizeOf v) hsv).2.1) k v cs (le_refl _)
        have hrest := fun cs' => ((IH (sizeOf rest) hsr).2.2.1) rest cs' (le_refl _)
        show sameShapeFields ((k, v) :: rest)
          ((k, (cliValue trP trH k v cs).1) ::
            (cliFields trP trH rest (cliValue trP trH k v cs).2).1) = true
        simp only [sameShapeFields, Bool.and_eq_true]
        exact ⟨⟨by simp, hv⟩, hrest _⟩
    · intro xs cs hs
      cases xs with
      | nil => rfl
      | cons x rest =>
        have hsx : sizeOf x < n := by simp only [List.cons.sizeOf_spec] at hs; omega
        have hsr : sizeOf rest < n := by simp only [List.cons.sizeOf_spec] at hs; omega
        have hx := ((IH (sizeOf x) hsx).1) x cs (le_refl _)
        have hrest := fun cs' => ((IH (sizeOf rest) hsr).2.2.2) rest cs' (le_refl _)
        show sameShapeItems (x :: rest)
          ((translate_json_fields_cli trP trH x cs).1 ::
            (cliItems trP trH rest (translate_json_fields_cli trP trH x cs).2).1) = true
        simp only [sameShapeItems, Bool.and_eq_true]
        exact ⟨hx, hrest _⟩

/-- A Boolean membership test that fails means non-membership. -/
theorem contains_false_not_mem {l : List String} {a : String}
    (h : l.contains a = false) : a ∉ l := by
  intro hm
  have h2 : l.contains a = true := List.elem_iff.mpr hm
  rw [h] at h2
  exact Bool.false_ne_true h2

/-- `WalkStep` is reflexive. -/
theorem walkStep_refl (st : WalkSt) : WalkStep st st :=
  ⟨fun _ h => h, fun _ he => Or.inl he⟩

/-- `WalkStep` composes. -/
theorem walkStep_comp {a b c : WalkSt} (h1 : WalkStep a b) (h2 : WalkStep b c) :
    WalkStep a c := by
  obtain ⟨f1, c1⟩ := h1
  obtain ⟨f2, c2⟩ := h2
  refine ⟨fun p hp => f2 p (f1 p hp), fun e he => ?_⟩
  rcases c2 e he with hb | hnb
  · exact c1 e hb
  · exact Or.inr fun ha => hnb (f1 _ ha)

/-- A leaf step satisfies `WalkStep` when its path is unflagged. -/
theorem guiFieldStep_walkStep (trP trH : String → Option String) (s path : String)
    (st : WalkSt) (h : st.flags.contains path = false) :
    WalkStep st (guiFieldStep trP trH s path st).2 := by
  rcases hst : stepTr trP trH s with _ | t
  · simp only [guiFieldStep, stepTr_fold, hst]
    refine ⟨fun p hp => hp, fun e he => ?_⟩
    simp only [logCall] at he
    rcases List.mem_append.mp he with h1 | h1
    · exact Or.inl h1
    · simp at h1
      subst h1
      exact Or.inr (contains_false_not_mem h)
  · simp only [guiFieldStep, stepTr_fold, hst]
    refine ⟨fun p hp => ?_, fun e he => ?_⟩
    · simp only [addFlag, logCall]
      exact List.mem_append.mpr (Or.inl hp)
    · simp only [addFlag, logCall] at he
      rcases List.mem_append.mp he with h1 | h1
      · exact Or.inl h1
      · simp at h1
        subst h1
        exact Or.inr (contains_false_not_mem h)

/-- An answers-text step satisfies `WalkStep` when its sub-path is
unflagged. -/
theorem guiAnswerTextStep_walkStep (trP trH : String → Option String) (s subPath : String)
    (st : WalkSt) (h : st.flags.contains subPath = false) :
    WalkStep st (guiAnswerTextStep trP trH s subPath st).2 := by
  rcases hst : stepTr trP trH s with _ | t
  · simp only [guiAnswerTextStep, stepTr_fold, hst]
    refine ⟨fun p hp => hp, fun e he => ?_⟩
    simp only [logCall] at he
    rcases List.mem_append.mp he with h1 | h1
    · exact Or.inl h1
    · simp at h1
      subst h1
      exact Or.inr (contains_false_not_mem h)
  · simp only [guiAnswerTextStep, stepTr_fold, hst]
    split
    · refine ⟨fun p hp => ?_, fun e he => ?_⟩
      · simp only [addFlag, logCall]
        exact List.mem_append.mpr (Or.inl hp)
      · simp only [addFlag, logCall] at he
        rcases List.mem_append.mp he with h1 | h1
        · exact Or.inl h1
        · simp at h1
          subst h1
          exact Or.inr (contains_false_not_mem h)
    · refine ⟨fun p hp => hp, fun e he => ?_⟩
      simp only [logCall] at he
      rcases List.mem_append.mp he with h1 | h1
      · exact Or.inl h1
      · simp at h1
        subst h1
        exact Or.inr (contains_false_not_mem h)

/-- A bare-list-item step satisfies `WalkStep` when its path is
unflagged. -/
theorem guiListItemStep_walkStep (trP trH : String → Option String) (s path : String)
    (st : WalkSt) (h : st.flags.contains path = false) :
    WalkStep st (guiListItemStep trP trH s path st).2 := by
  rcases hst : stepTr trP trH s with _ | t
  · simp only [guiListItemStep, stepTr_fold, hst]
    refine ⟨fun p hp => hp, fun e he => ?_⟩
    simp only [logCall] at he
    rcases List.mem_append.mp he with h1 | h1
    · exact Or.inl h1
    · simp at h1
      subst h1
      exact Or.inr (contains_false_not_mem h)
  · simp only [guiListItemStep, stepTr_fold, hst]
    split
    · refine ⟨fun p hp => ?_, fun e he => ?_⟩
      · simp only [addFlag, logCall]
        exact List.mem_append.mpr (Or.inl hp)
      · simp only [addFlag, logCall] at he
        rcases List.mem_append.mp he with h1 | h1
        · exact Or.inl h1
        · simp at h1
          subst h1
          exact Or.inr (contains_false_not_mem h)
    · refine ⟨fun p hp => hp, fun e he => ?_⟩
      simp only [logCall] at he
      rcases List.mem_append.mp he with h1 | h1
      · exact Or.inl h1
      · simp at h1
        subst h1
        exact Or.inr (contains_false_not_mem h)

/-- Master VisitedSet lemma: every entry point of the GUI walker
relates its input and output states by `WalkStep` — flags persist and
new translation requests only target paths unflagged when the
respective step began. -/
theorem walkStepAll (trP trH : String → Option String) :
    ∀ n : Nat,
      (∀ d st cur, sizeOf d ≤ n →
        WalkStep st (translate_json_fields trP trH d st cur).2) ∧
      (∀ k v st path, sizeOf v ≤ n → st.flags.contains path = false →
        WalkStep st (tjfValue trP trH k v st path).2) ∧
      (∀ fs st cur, sizeOf fs ≤ n →
        WalkStep st (tjfFields trP trH fs st cur).2) ∧
      (∀ a st ip, sizeOf a ≤ n →
        WalkStep st (tjfAnswerItem trP trH a st ip).2) ∧
      (∀ xs idx st p, sizeOf xs ≤ n →
        WalkStep st (tjfAnswers trP trH xs idx st p).2) ∧
      (∀ xs idx st p, sizeOf xs ≤ n →
        WalkStep st (tjfQuestions trP trH xs idx st p).2) ∧
      (∀ xs idx st p, sizeOf xs ≤ n →
        WalkStep st (tjfItems trP trH xs idx st p).2) := by
  intro n
  induction n using Nat.strong_induction_on with
  | _ n IH =>
    refine ⟨?_, ?_, ?_, ?_, ?_, ?_, ?_⟩
    · -- translate_json_fields
      intro d st cur hs
      cases d with
      | str s => exact walkStep_refl st
      | num m => exact walkStep_refl st
      | bool b => exact walkStep_refl st
      | null => exact walkStep_refl st
      | arr xs =>
        have hsz : sizeOf xs < n := by simp only [Json.arr.sizeOf_spec] at hs; omega
        show WalkStep st (tjfItems trP trH xs 0 st cur).2
        exact ((IH (sizeOf xs) hsz).2.2.2.2.2.2) xs 0 st cur (le_refl _)
      | obj fs =>
        have hsz : sizeOf fs < n := by simp only [Json.obj.sizeOf_spec] at hs; omega
        show WalkStep st (tjfFields trP trH fs st cur).2
        exact ((IH (sizeOf fs) hsz).2.2.1) fs st cur (le_refl _)
    · -- tjfValue
      intro k v st path hs hc
      cases v with
      | str s =>
        simp only [tjfValue]
        split
        · exact guiFieldStep_walkStep trP trH s path st hc
        · exact walkStep_refl st
      | arr items =>
        have hsz : sizeOf items < n := by simp only [Json.arr.sizeOf_spec] at hs; omega
        simp only [tjfValue]
        split
        · show WalkStep st (tjfAnswers trP trH items 0 st path).2
          exact ((IH (sizeOf items) hsz).2.2.2.2.1) items 0 st path (le_refl _)
        · split
          · show WalkStep st (tjfQuestions trP trH items 0 st path).2
            exact ((IH (sizeOf items) hsz).2.2.2.2.2.1) items 0 st path (le_refl _)
          · show WalkStep st (tjfItems trP trH items 0 st path).2
            exact ((IH (sizeOf items) hsz).2.2.2.2.2.2) items 0 st path (le_refl _)
      | obj fs =>
        have hsz : sizeOf fs < n := by simp only [Json.obj.sizeOf_spec] at hs; omega
        show WalkStep st (tjfFields trP trH fs st path).2
        exact ((IH (sizeOf fs) hsz).2.2.1) fs st path (le_refl _)
      | num m => exact walkStep_refl st
      | bool b => exact walkStep_refl st
      | null => exact walkStep_refl st
    · -- tjfFields
      intro fs st cur hs
      cases fs with
      | nil => exact walkStep_refl st
      | cons kv rest =>
        obtain ⟨k, v⟩ := kv
        have hsv : sizeOf v < n := by
          simp only [List.cons.sizeOf_spec, Prod.mk.sizeOf_spec] at hs; omega
        have hsr : sizeOf rest < n := by
          simp only [List.cons.sizeOf_spec] at hs; omega
        have hrest := fun st' => ((IH (sizeOf rest) hsr).2.2.1) rest st' cur (le_refl _)
        simp only [tjfFields]
        by_cases hc : (st.flags.contains (cur ++ "/" ++ k)) = true
        · simp only [hc, if_true]
          show WalkStep st (tjfFields trP trH rest st cur).2
          exact hrest st
        · simp only [hc, Bool.false_eq_true, if_false]
          have hv := ((IH (sizeOf v) hsv).2.1) k v st (cur ++ "/" ++ k) (le_refl _) (Bool.of_not_eq_true hc)
          show WalkStep st (tjfFields trP trH rest
            (tjfValue trP trH k v st (cur ++ "/" ++ k)).2 cur).2
          exact walkStep_comp hv (hrest _)
    · -- tjfAnswerItem
      intro a st ip hs
      cases a with
      | obj fs =>
        have hsf : sizeOf fs < n := by simp only [Json.obj.sizeOf_spec] at hs; omega
        have hrec := fun st' => ((IH (sizeOf fs) hsf).2.2.1) fs st' ip (le_refl _)
        simp only [tjfAnswerItem]
        rcases hl : lookupField fs "text" with _ | tv
        · simp only [hl]
          show WalkStep st (tjfFields trP trH fs st ip).2
          exact hrec st
        · simp only [hl]
          by_cases hcf : (st.flags.contains (ip ++ "/text")) = true
          · simp only [hcf, if_true]
            show WalkStep st (tjfFields trP trH fs st ip).2
            exact hrec st
          · simp only [hcf, Bool.false_eq_true, if_false]
            cases tv with
            | str s =>
              by_cases hne : (pstrip s != "") = true
              · simp only [hne, if_true]
                have hstep := guiAnswerTextStep_walkStep trP trH s (ip ++ "/text") st (Bool.of_not_eq_true hcf)
                show WalkStep st (tjfFields trP trH fs
                  (guiAnswerTextStep trP trH s (ip ++ "/text") st).2 ip).2
                exact walkStep_comp hstep (hrec _)
              · simp only [hne, Bool.false_eq_true, if_false]
                show WalkStep st (tjfFields trP trH fs st ip).2
                exact hrec st
            | num m =>
              show WalkStep st (tjfFields trP trH fs st ip).2
              exact hrec st
            | bool b =>
              show WalkStep st (tjfFields trP trH fs st ip).2
              exact hrec st
            | null =>
              show WalkStep st (tjfFields trP trH fs st ip).2
              exact hrec st
            | arr xs =>
              show WalkStep st (tjfFields trP trH fs st ip).2
              exact hrec st
            | obj fs2 =>
              show WalkStep st (tjfFields trP trH fs st ip).2
              exact hrec st
      | str s => exact walkStep_refl st
      | num m => exact walkStep_refl st
      | bool b => exact walkStep_refl st
      | null => exact walkStep_refl st
      | arr xs => exact walkStep_refl st
    · -- tjfAnswers
      intro xs idx st p hs
      cases xs with
      | nil => exact walkStep_refl st
      | cons a rest =>
        have hsa : sizeOf a < n := by simp only [List.cons.sizeOf_spec] at hs; omega
        have hsr : sizeOf rest < n := by simp only [List.cons.sizeOf_spec] at hs; omega
        have h4 := ((IH (sizeOf a) hsa).2.2.2.1) a st (p ++ "[" ++ toString idx ++ "]") (le_refl _)
        have h5 := fun st' =>
          ((IH (sizeOf rest) hsr).2.2.2.2.1) rest (idx + 1) st' p (le_refl _)
        show WalkStep st (tjfAnswers trP trH rest (idx + 1)
          (tjfAnswerItem trP trH a st (p ++ "[" ++ toString idx ++ "]")).2 p).2
        exact walkStep_comp h4 (h5 _)
    · -- tjfQuestions
      intro xs idx st p hs
      cases xs with
      | nil => exact walkStep_refl st
      | cons q rest =>
        have hsq : sizeOf q < n := by simp only [List.cons.sizeOf_spec] at hs; omega
        have hsr : sizeOf rest < n := by simp only [List.cons.sizeOf_spec] at hs; omega
        have h1 := ((IH (sizeOf q) hsq).1) q st (p ++ "[" ++ toString idx ++ "]") (le_refl _)
        have h6 := fun st' =>
          ((IH (sizeOf rest) hsr).2.2.2.2.2.1) rest (idx + 1) st' p (le_refl _)
        show WalkStep st (tjfQuestions trP trH rest (idx + 1)
          (translate_json_fields trP trH q st (p ++ "[" ++ toString idx ++ "]")).2 p).2
        exact walkStep_comp h1 (h6 _)
    · -- tjfItems
      intro xs idx st p hs
      cases xs with
      | nil => exact walkStep_refl st
      | cons x rest =>
        have hsx : sizeOf x < n := by simp only [List.cons.sizeOf_spec] at hs; omega
        have hsr : sizeOf rest < n := by simp only [List.cons.sizeOf_spec] at hs; omega
        have h7 := fun st' =>
          ((IH (sizeOf rest) hsr).2.2.2.2.2.2) rest (idx + 1) st' p (le_refl _)
        cases x with
        | str s =>
          by_cases hc : (st.flags.contains (p ++ "[" ++ toString idx ++ "]")) = true
          · simp only [tjfItems, hc, if_true]
            show WalkStep st (tjfItems trP trH rest (idx + 1) st p).2
            exact h7 st
          · simp only [tjfItems, hc, Bool.false_eq_true, if_false]
            have hstep := guiListItemStep_walkStep trP trH s (p ++ "[" ++ toString idx ++ "]") st (Bool.of_not_eq_true hc)
            show WalkStep st (tjfItems trP trH rest (idx + 1)
              (guiListItemStep trP trH s (p ++ "[" ++ toString idx ++ "]") st).2 p).2
            exact walkStep_comp hstep (h7 _)
        | obj fs =>
          have h1 := ((IH _ hsx).1) (Json.obj fs) st (p ++ "[" ++ toString idx ++ "]") (le_refl _)
          show WalkStep st (tjfItems trP trH rest (idx + 1)
            (translate_json_fields trP trH (Json.obj fs) st
              (p ++ "[" ++ toString idx ++ "]")).2 p).2
          exact walkStep_comp h1 (h7 _)
        | arr ys =>
          have h1 := ((IH _ hsx).1) (Json.arr ys) st (p ++ "[" ++ toString idx ++ "]") (le_refl _)
          show WalkStep st (tjfItems trP trH rest (idx + 1)
            (translate_json_fields trP trH (Json.arr ys) st
              (p ++ "[" ++ toString idx ++ "]")).2 p).2
          exact walkStep_comp h1 (h7 _)
        | num m =>
          show WalkStep st (tjfItems trP trH rest (idx + 1) st p).2
          exact h7 st
        | bool b =>
          show WalkStep st (tjfItems trP trH rest (idx + 1) st p).2
          exact h7 st
        | null =>
          show WalkStep st (tjfItems trP trH rest (idx + 1) st p).2
          exact h7 st

/-- The chunk loop translates exactly the inputs `chunkInputs` lists, in
order. -/
theorem chunkParts_eq_map (tsc : String → String) :
    ∀ (l : List String) (cur : String),
      chunkParts tsc l cur = (chunkInputs l cur).map tsc := by
  intro l
  induction l with
  | nil =>
    intro cur
    simp only [chunkParts, chunkInputs]
    split <;> simp
  | cons full rest ih =>
    intro cur
    simp only [chunkParts, chunkInputs]
    split
    · split
      · simp only [List.map_cons, ih full]
      · simp only [List.map_cons, ih cur]
    · exact ih (cur ++ full)

/-- Every chunk input is within the budget or is the stripped form of a
single (over-long) sentence piece. -/
theorem chunkInputs_bound :
    ∀ (l : List String) (cur : String) (c : String), c ∈ chunkInputs l cur →
      c.length ≤ max_input_length ∨ (∃ s ∈ l, c = pstrip s) ∨
        (c = pstrip cur ∧ max_input_length < cur.length) := by
  intro l
  induction l with
  | nil =>
    intro cur c hc
    simp only [chunkInputs] at hc
    split at hc
    · simp at hc
      subst hc
      by_cases hlen : cur.length ≤ max_input_length
      · exact Or.inl (le_trans (pstrip_length_le cur) hlen)
      · exact Or.inr (Or.inr ⟨rfl, by omega⟩)
    · simp at hc
  | cons full rest ih =>
    intro cur c hc
    simp only [chunkInputs] at hc
    split at hc
    · rename_i hgt
      split at hc
      · rcases List.mem_cons.mp hc with h1 | h1
        · subst h1
          by_cases hlen : cur.length ≤ max_input_length
          · exact Or.inl (le_trans (pstrip_length_le cur) hlen)
          · exact Or.inr (Or.inr ⟨rfl, by omega⟩)
        · rcases ih full c h1 with h2 | ⟨s, hs, h2⟩ | ⟨h2, h3⟩
          · exact Or.inl h2
          · exact Or.inr (Or.inl ⟨s, by simp [hs], h2⟩)
          · exact Or.inr (Or.inl ⟨full, by simp, h2⟩)
      · rename_i hemp
        rcases List.mem_cons.mp hc with h1 | h1
        · subst h1
          exact Or.inr (Or.inl ⟨full, by simp, rfl⟩)
        · rcases ih cur c h1 with h2 | ⟨s, hs, h2⟩ | ⟨h2, h3⟩
          · exact Or.inl h2
          · exact Or.inr (Or.inl ⟨s, by simp [hs], h2⟩)
          · have : cur = "" := by simpa using hemp
            rw [this] at h3
            simp at h3
    · rename_i hle
      rcases ih (cur ++ full) c hc with h2 | ⟨s, hs, h2⟩ | ⟨h2, h3⟩
      · exact Or.inl h2
      · exact Or.inr (Or.inl ⟨s, by simp [hs], h2⟩)
      · rw [h2]
        refine Or.inl (le_trans (pstrip_length_le _) ?_)
        omega

/-- A leaf step always logs exactly one request, tagged with the markup
test of its input. -/
theorem guiFieldStep_calls (trP trH : String → Option String) (s path : String) (st : WalkSt) :
    (guiFieldStep trP trH s path st).2.calls = st.calls ++ [⟨path, s, isMarkupGui s⟩] := by
  rcases h : stepTr trP trH s with _ | t <;>
    simp [guiFieldStep, stepTr_fold, h, logCall, addFlag]

/-- A plain-text leaf whose translation passes the quality gate is
replaced by the translation. -/
theorem guiFieldStep_fst_accept_plain (trP trH : String → Option String) (s path : String)
    (st : WalkSt) (t : String) (hm : isMarkupGui s = false) (h : trP s = some t)
    (hlen : 3 ≤ (pstrip t).length) :
    (guiFieldStep trP trH s path st).1 = .str t := by
  simp only [guiFieldStep, hm, Bool.false_eq_true, if_false, h]
  rw [if_neg (by omega)]

/-- A markup leaf whose markup-path translation passes the quality gate
is replaced by it. -/
theorem guiFieldStep_fst_accept_markup (trP trH : String → Option String) (s path : String)
    (st : WalkSt) (t : String) (hm : isMarkupGui s = true) (h : trH s = some t)
    (hlen : 3 ≤ (pstrip t).length) :
    (guiFieldStep trP trH s path st).1 = .str t := by
  simp only [guiFieldStep, hm, if_true, h]
  rw [if_neg (by omega)]

/-- The CLI walker logs exactly one request for a string under a
translatable key, tagged with its markup test. -/
theorem cliValue_calls (trP trH : String → Option String) (k s : String)
    (cs : List (String × Bool)) (hk : cliTranslatableKeys.contains k = true) :
    (cliValue trP trH k (.str s) cs).2 = cs ++ [(s, hasChar '<' s && hasLtSlash s)] := by
  rcases h : cliStepTr trP trH s with _ | t <;>
    simp only [cliValue, hk, if_true, cliStepTr_fold, h]

/-- A plain-text CLI leaf is replaced by the engine's output. -/
theorem cliValue_fst_plain (trP trH : String → Option String) (k s t : String)
    (cs : List (String × Bool)) (hk : cliTranslatableKeys.contains k = true)
    (hm : (hasChar '<' s && hasLtSlash s) = false) (h : trP s = some t) :
    (cliValue trP trH k (.str s) cs).1 = .str t := by
  have hfold : cliStepTr trP trH s = some t := by
    simp only [cliStepTr, hm, Bool.false_eq_true, if_false, h]
  simp only [cliValue, hk, if_true, cliStepTr_fold, hfold]

/-- A markup CLI leaf is replaced by the markup path's output. -/
theorem cliValue_fst_markup (trP trH : String → Option String) (k s t : String)
    (cs : List (String × Bool)) (hk : cliTranslatableKeys.contains k = true)
    (hm : (hasChar '<' s && hasLtSlash s) = true) (h : trH s = some t) :
    (cliValue trP trH k (.str s) cs).1 = .str t := by
  have hfold : cliStepTr trP trH s = some t := by
    simp only [cliStepTr, hm, if_true, h]
  simp only [cliValue, hk, if_true, cliStepTr_fold, hfold]

/-- C1 (counterexample): on the spec's end-to-end fixture with the
uppercasing stub, the walker does not produce the claimed output — the
uppercased second answer "NO" is only 2 characters once stripped, so
the quality gate rejects it and the original "No" is kept. -/
theorem c1_end_to_end_counterexample :
    (translate_json_fields upcaseTr upcaseTr fixtureC1 initSt "root").1 ≠
      Json.obj [("text", Json.str "TURN ON THE POWER."),
                ("irrelevant", Json.str "skip me"),
                ("answers", Json.arr [Json.obj [("text", Json.str "YES")],
                                      Json.obj [("text", Json.str "NO")]])] := by
  intro h
  have h2 := congrArg (fun j => asStr (getFieldJ (atIdx (getFieldJ j "answers") 1) "text")) h
  exact absurd h2 (by decide)

/-- C1 (amended): on the spec's end-to-end fixture with the uppercasing
stub, the walker uppercases the "text" leaf and the first answer,
leaves "irrelevant" untouched, keeps the second answer at "No" (its
translation "NO" fails the 3-character quality gate), and ends with
VisitedSet exactly {root/text, root/answers[0]/text,
root/answers[1]/text}. -/
theorem c1_end_to_end :
    (translate_json_fields upcaseTr upcaseTr fixtureC1 initSt "root").1 =
      Json.obj [("text", Json.str "TURN ON THE POWER."),
                ("irrelevant", Json.str "skip me"),
                ("answers", Json.arr [Json.obj [("text", Json.str "YES")],
                                      Json.obj [("text", Json.str "No")]])] ∧
    (translate_json_fields upcaseTr upcaseTr fixtureC1 initSt "root").2.flags =
      ["root/text", "root/answers[0]/text", "root/answers[1]/text"] :=
  ⟨rfl, by decide⟩

/-- C2 (counterexample): for the document
`{"answers": [{"text": "Hi"}]}` — whose text leaf is reachable both
through the specialised answers handler and through the generic
recursive descent — the uppercasing stub is invoked twice for the same
leaf: the handler's result "HI" fails the 3-character gate, the
sub-path is not flagged, and the generic descent translates it again. -/
theorem c2_duplicate_call_counterexample :
    ((translate_json_fields upcaseTr upcaseTr
        (Json.obj [("answers", Json.arr [Json.obj [("text", Json.str "Hi")]])])
        initSt "root").2.calls.filter
        (fun e => e.path == "root/answers[0]/text")).length = 2 := by decide

/-- C2 (amended): once a path is in the VisitedSet, no component issues
a translation request for it again — any call present after a walk at
a path flagged before the walk was already present before it; and for
the fixture `{"answers": [{"text": "Yes"}]}`, whose handler translation
passes the quality gate, the translator is invoked exactly once for
the leaf. -/
theorem c2_no_revisit :
    (∀ (trP trH : String → Option String) (d : Json) (st : WalkSt) (cur : String)
      (p : String), p ∈ st.flags →
      ∀ e ∈ (translate_json_fields trP trH d st cur).2.calls, e.path = p → e ∈ st.calls) ∧
    ((translate_json_fields upcaseTr upcaseTr
        (Json.obj [("answers", Json.arr [Json.obj [("text", Json.str "Yes")]])])
        initSt "root").2.calls.filter
        (fun e => e.path == "root/answers[0]/text")).length = 1 := by
  constructor
  · intro trP trH d st cur p hp e he hep
    have hw := (walkStepAll trP trH (sizeOf d)).1 d st cur (le_refl _)
    rcases hw.2 e he with h1 | h1
    · exact h1
    · exact absurd (by rw [hep]; exact hp) h1
  · decide

/-- C2 (witness): a concrete run in which the invariant applies — the
only path of the document is flagged before the run, so the call log is
untouched and the logged entry present afterwards is the one present
before. -/
theorem c2_no_revisit_witness :
    ("root/text" ∈ (WalkSt.mk ["root/text"] [⟨"root/text", "x", false⟩]).flags) ∧
    (⟨"root/text", "x", false⟩ : CallEntry) ∈
      (translate_json_fields upcaseTr upcaseTr (Json.obj [("text", Json.str "hi")])
        ⟨["root/text"], [⟨"root/text", "x", false⟩]⟩ "root").2.calls ∧
    (⟨"root/text", "x", false⟩ : CallEntry) ∈
      [(⟨"root/text", "x", false⟩ : CallEntry)] :=
  ⟨by decide, by decide,
    c2_no_revisit.1 upcaseTr upcaseTr (Json.obj [("text", Json.str "hi")])
      ⟨["root/text"], [⟨"root/text", "x", false⟩]⟩ "root" "root/text" (by decide)
      ⟨"root/text", "x", false⟩ (by decide) (by decide)⟩

/-- C10: for every document and any engine, both walkers preserve the
document's structure — no mapping key is added, removed or reordered,
no sequence changes length or order, no non-string leaf changes, and
every mutation replaces a string leaf with a string. -/
theorem c10_structure_preserved (trP trH : String → Option String) (d : Json)
    (st : WalkSt) (cur : String) (cs : List (String × Bool)) :
    sameShape d (translate_json_fields trP trH d st cur).1 = true ∧
    sameShape d (translate_json_fields_cli trP trH d cs).1 = true :=
  ⟨(shapeAll trP trH (sizeOf d)).1 d st cur (le_refl _),
   (shapeAllCli trP trH (sizeOf d)).1 d cs (le_refl _)⟩

/-- C3: for plain text over the budget, the chunker translates exactly
the listed chunk inputs independently and in order, joins the results
with single spaces, and every chunk input is within the 200-character
budget unless it is a single (stripped) sentence that alone exceeds
it, which is sent untruncated. -/
theorem c3_chunker_budget (tsc : String → String) (text : String)
    (h1 : pstrip text ≠ "") (h2 : max_input_length < (pstrip text).length) :
    translate_local_ai tsc text =
      String.intercalate " "
        ((chunkInputs (pairUp (reSplitPunct (pstrip text))) "").map tsc) ∧
    ∀ c ∈ chunkInputs (pairUp (reSplitPunct (pstrip text))) "",
      c.length ≤ max_input_length ∨
        ∃ s ∈ pairUp (reSplitPunct (pstrip text)), c = pstrip s := by
  constructor
  · simp only [translate_local_ai]
    rw [if_neg h1, if_pos h2, chunkParts_eq_map]
  · intro c hc
    rcases chunkInputs_bound _ "" c hc with h | h | ⟨h3, h4⟩
    · exact Or.inl h
    · exact Or.inr h
    · exact absurd h4 (by decide)

set_option maxRecDepth 100000 in
/-- C3 (witness): the three-sentence 299-character fixture — each
sentence fits the budget, the whole string does not; with the identity
per-chunk translator the chunker emits two in-budget chunks and the
joined output reproduces all three sentences in order, single-spaced
(it equals the input text verbatim). -/
theorem c3_chunker_budget_witness :
    (pstrip fxText ≠ "" ∧ max_input_length < (pstrip fxText).length) ∧
    translate_local_ai id fxText = fxText ∧
    (translate_local_ai id fxText =
      String.intercalate " "
        ((chunkInputs (pairUp (reSplitPunct (pstrip fxText))) "").map id) ∧
     ∀ c ∈ chunkInputs (pairUp (reSplitPunct (pstrip fxText))) "",
       c.length ≤ max_input_length ∨
         ∃ s ∈ pairUp (reSplitPunct (pstrip fxText)), c = pstrip s) :=
  ⟨⟨by decide, by decide⟩, by decide,
    c3_chunker_budget id fxText (by decide) (by decide)⟩

/-- C4 (counterexample): with an engine stub returning the 1-character
string "X", a markup-classified leaf does not keep its original value:
`translate_html_robust` on `<p>Hello</p>` with that engine yields
`<p>X</p>` (tier 1 rewrites the element to "X" but fails the
length-10 validation, tier 2 likewise, and tier 3 wraps the plain-text
translation "X" back into a paragraph), and `<p>X</p>` passes the
3-character quality gate, so the walker overwrites the leaf. -/
theorem c4_markup_leaf_changes_counterexample :
    (translate_json_fields (fun _ => some "X") (fun _ => some "<p>X</p>")
      (Json.obj [("text", Json.str "<p>Hello</p>")]) initSt "root").1 =
      Json.obj [("text", Json.str "<p>X</p>")] ∧
    ("<p>X</p>" : String) ≠ "<p>Hello</p>" :=
  ⟨rfl, by decide⟩

/-- C4 (amended): the walker discards any leaf translation whose
stripped length is below 3 characters and keeps the original value, so
with an engine stub that always returns a 1-character string every
leaf of a markup-free document retains its original value; markup
leaves may still change, because the markup path's output re-wraps the
short engine output in tags that pass the gate. -/
theorem c4_quality_gate (trP trH : String → Option String)
    (hshort : ∀ s, ∃ t, trP s = some t ∧ t.length = 1)
    (d : Json) (st : WalkSt) (cur : String) (hmf : markupFree d = true) :
    (translate_json_fields trP trH d st cur).1 = d := by
  have hkeep : ∀ s, trP s = none ∨ trP s = some s ∨
      ∃ t, trP s = some t ∧ (pstrip t).length < 3 := by
    intro s
    obtain ⟨t, ht, hlen⟩ := hshort s
    refine Or.inr (Or.inr ⟨t, ht, ?_⟩)
    have := pstrip_length_le t
    omega
  exact (preserveAll trP trH hkeep (sizeOf d)).1 d st cur (le_refl _) hmf

/-- C4 (witness): a concrete markup-free document and a constant
1-character engine, on which the walker keeps every leaf. -/
theorem c4_quality_gate_witness :
    (∀ s : String, ∃ t, ((fun _ => some "X") : String → Option String) s = some t ∧
      t.length = 1) ∧
    markupFree (Json.obj [("text", Json.str "hello")]) = true ∧
    (translate_json_fields (fun _ => some "X") (fun _ => none)
      (Json.obj [("text", Json.str "hello")]) initSt "root").1 =
      Json.obj [("text", Json.str "hello")] :=
  ⟨fun _ => ⟨"X", rfl, rfl⟩, by decide,
    c4_quality_gate (fun _ => some "X") (fun _ => none) (fun _ => ⟨"X", rfl, rfl⟩)
      (Json.obj [("text", Json.str "hello")]) initSt "root" (by decide)⟩

/-- C5 (counterexample): the flatten-and-resegment tier is accepted
without validation.  With strategies matching the behaviour of the
real code on `<p>Hello</p>` under a 1-character engine (each tier
produces `<p>X</p>`, whose rendered text "X" fails the length-10
validation), the dispatcher still returns `<p>X</p>` from tier 3 even
though that candidate fails the validation it supposedly passes. -/
theorem c5_tier3_unvalidated_counterexample :
    translate_html_robust (fun s => if s == "<p>X</p>" then "X" else s)
      (fun _ => some "<p>X</p>") (fun _ => some "<p>X</p>") (fun _ => some "<p>X</p>")
      "<p>Hello</p>" = "<p>X</p>" ∧
    robustValid (fun s => if s == "<p>X</p>" then "X" else s) "<p>X</p>" = false := by
  constructor
  · decide
  · decide

/-- C5 (amended): the dispatcher tries the three strategies in order;
a tier-1 or tier-2 candidate is accepted only if it passes the
rendered-text validation, a tier-3 candidate is accepted without
validation, and if all three strategies raise, the original fragment
is returned unmodified. -/
theorem c5_fallback_order (getText : String → String)
    (strat1 strat2 strat3 : String → Option String) (html r : String)
    (hne : pstrip html ≠ "") :
    (strat1 html = some r → robustValid getText r = true →
      translate_html_robust getText strat1 strat2 strat3 html = r) ∧
    ((strat1 html = none ∨ ∃ r1, strat1 html = some r1 ∧ robustValid getText r1 = false) →
      strat2 html = some r → robustValid getText r = true →
      translate_html_robust getText strat1 strat2 strat3 html = r) ∧
    ((strat1 html = none ∨ ∃ r1, strat1 html = some r1 ∧ robustValid getText r1 = false) →
      (strat2 html = none ∨ ∃ r2, strat2 html = some r2 ∧ robustValid getText r2 = false) →
      strat3 html = some r →
      translate_html_robust getText strat1 strat2 strat3 html = r) ∧
    (strat1 html = none → strat2 html = none → strat3 html = none →
      translate_html_robust getText strat1 strat2 strat3 html = html) := by
  refine ⟨?_, ?_, ?_, ?_⟩
  · intro h1 hv
    simp only [translate_html_robust, if_neg hne, h1, hv, if_true]
  · intro h1 h2 hv
    rcases h1 with h1 | ⟨r1, h1, hv1⟩
    · simp only [translate_html_robust, robustTier2, if_neg hne, h1, h2, hv, if_true]
    · simp only [translate_html_robust, robustTier2, if_neg hne, h1, hv1,
        Bool.false_eq_true, if_false, h2, hv, if_true]
  · intro h1 h2 h3
    rcases h1 with h1 | ⟨r1, h1, hv1⟩
    · rcases h2 with h2 | ⟨r2, h2, hv2⟩
      · simp only [translate_html_robust, robustTier2, robustTier3, if_neg hne, h1, h2, h3]
      · simp only [translate_html_robust, robustTier2, robustTier3, if_neg hne, h1, h2,
          hv2, Bool.false_eq_true, if_false, h3]
    · rcases h2 with h2 | ⟨r2, h2, hv2⟩
      · simp only [translate_html_robust, robustTier2, robustTier3, if_neg hne, h1, hv1,
          Bool.false_eq_true, if_false, h2, h3]
      · simp only [translate_html_robust, robustTier2, robustTier3, if_neg hne, h1, hv1,
          h2, hv2, Bool.false_eq_true, if_false, h3]
  · intro h1 h2 h3
    simp only [translate_html_robust, robustTier2, robustTier3, if_neg hne, h1, h2, h3]

/-- C5 (witness): a concrete fragment on which tier 1 raises, tier 2
produces a validated candidate, and the dispatcher returns it. -/
theorem c5_fallback_order_witness :
    pstrip "<p>Hello world</p>" ≠ "" ∧
    ((fun _ : String => (none : Option String)) "<p>Hello world</p>" = none ∨
      ∃ r1, (fun _ : String => (none : Option String)) "<p>Hello world</p>" = some r1 ∧
        robustValid id r1 = false) ∧
    (fun _ : String => some "Hallo schoene Welt") "<p>Hello world</p>" =
      some "Hallo schoene Welt" ∧
    robustValid id "Hallo schoene Welt" = true ∧
    translate_html_robust id (fun _ => none) (fun _ => some "Hallo schoene Welt")
      (fun _ => none) "<p>Hello world</p>" = "Hallo schoene Welt" :=
  ⟨by decide, Or.inl rfl, rfl, by decide,
    (c5_fallback_order id (fun _ => none) (fun _ => some "Hallo schoene Welt")
      (fun _ => none) "<p>Hello world</p>" "Hallo schoene Welt" (by decide)).2.1
      (Or.inl rfl) rfl (by decide)⟩

/-- C6: a string under a translatable key goes through the markup path
exactly when the GUI walker's test `"<" in value and ">" in value`
holds (the CLI walker's test being `"<" in value and "</" in value`),
as recorded in the issued request, and the accepted result comes from
the corresponding translator. -/
theorem c6_markup_dispatch (trP trH : String → Option String) (k v : String) (st : WalkSt)
    (cur : String) (cs : List (String × Bool)) (kc vc : String)
    (hk : translatableKeys.contains k = true) (hne : pstrip v ≠ "")
    (hfl : st.flags.contains (cur ++ "/" ++ k) = false)
    (hkc : cliTranslatableKeys.contains kc = true) :
    (tjfFields trP trH [(k, .str v)] st cur).2.calls =
      st.calls ++ [⟨cur ++ "/" ++ k, v, hasChar '<' v && hasChar '>' v⟩] ∧
    (∀ t, (hasChar '<' v && hasChar '>' v) = false → trP v = some t →
      3 ≤ (pstrip t).length →
      (tjfFields trP trH [(k, .str v)] st cur).1 = [(k, .str t)]) ∧
    (∀ t, (hasChar '<' v && hasChar '>' v) = true → trH v = some t →
      3 ≤ (pstrip t).length →
      (tjfFields trP trH [(k, .str v)] st cur).1 = [(k, .str t)]) ∧
    (cliFields trP trH [(kc, .str vc)] cs).2 =
      cs ++ [(vc, hasChar '<' vc && hasLtSlash vc)] ∧
    (∀ t, (hasChar '<' vc && hasLtSlash vc) = false → trP vc = some t →
      (cliFields trP trH [(kc, .str vc)] cs).1 = [(kc, .str t)]) ∧
    (∀ t, (hasChar '<' vc && hasLtSlash vc) = true → trH vc = some t →
      (cliFields trP trH [(kc, .str vc)] cs).1 = [(kc, .str t)]) := by
  have hbne : (pstrip v != "") = true := by simpa [bne_iff_ne] using hne
  have hcond : (translatableKeys.contains k && (pstrip v != "")) = true := by
    rw [hk, hbne]
    rfl
  refine ⟨?_, ?_, ?_, ?_, ?_, ?_⟩
  · simp only [tjfFields, hfl, Bool.false_eq_true, if_false, tjfValue, hcond, if_true]
    exact guiFieldStep_calls trP trH v (cur ++ "/" ++ k) st
  · intro t hm ht hlen
    simp only [tjfFields, hfl, Bool.false_eq_true, if_false, tjfValue, hcond, if_true]
    rw [guiFieldStep_fst_accept_plain trP trH v (cur ++ "/" ++ k) st t hm ht hlen]
  · intro t hm ht hlen
    simp only [tjfFields, hfl, Bool.false_eq_true, if_false, tjfValue, hcond, if_true]
    rw [guiFieldStep_fst_accept_markup trP trH v (cur ++ "/" ++ k) st t hm ht hlen]
  · simp only [cliFields]
    exact cliValue_calls trP trH kc vc cs hkc
  · intro t hm ht
    simp only [cliFields]
    rw [cliValue_fst_plain trP trH kc vc t cs hkc hm ht]
  · intro t hm ht
    simp only [cliFields]
    rw [cliValue_fst_markup trP trH kc vc t cs hkc hm ht]

/-- C6 (witness): concrete plain and markup leaves dispatched by both
walkers. -/
theorem c6_markup_dispatch_witness :
    (translatableKeys.contains "title" = true ∧ pstrip "a<b> ok" ≠ "" ∧
      initSt.flags.contains ("root" ++ "/" ++ "title") = false ∧
      cliTranslatableKeys.contains "alt" = true) ∧
    (tjfFields upcaseTr upcaseTr [("title", .str "a<b> ok")] initSt "root").2.calls =
      initSt.calls ++ [⟨"root" ++ "/" ++ "title", "a<b> ok",
        hasChar '<' "a<b> ok" && hasChar '>' "a<b> ok"⟩] :=
  ⟨⟨by decide, by decide, by decide, by decide⟩,
    (c6_markup_dispatch upcaseTr upcaseTr "title" "a<b> ok" initSt "root" [] "alt" "x"
      (by decide) (by decide) (by decide) (by decide)).1⟩

/-- C7 (counterexample): a bare string inside a sequence stored under
the non-translatable key "foo" — outside any answers/questions
container — is passed to the translator and overwritten by the GUI
walker, and its path is flagged. -/
theorem c7_bare_item_counterexample :
    (translate_json_fields upcaseTr upcaseTr
      (Json.obj [("foo", Json.arr [Json.str "hello"])]) initSt "root") =
      (Json.obj [("foo", Json.arr [Json.str "HELLO"])],
       ⟨["root/foo[0]"], [⟨"root/foo[0]", "hello", false⟩]⟩) ∧
    translatableKeys.contains "foo" = false ∧
    Json.str "HELLO" ≠ Json.str "hello" :=
  ⟨rfl, by decide, by intro h; simp at h⟩

/-- C7 (amended): a string value stored directly under a mapping key
outside the TranslatableKeySet is never passed to the translator and
never overwritten, by either walker; bare string items of sequences,
however, are translated by the GUI walker wherever they occur. -/
theorem c7_nonmember_keys :
    (∀ (trP trH : String → Option String) (k s : String) (rest : List (String × Json))
      (st : WalkSt) (cur : String), translatableKeys.contains k = false →
      tjfFields trP trH ((k, .str s) :: rest) st cur =
        ((k, .str s) :: (tjfFields trP trH rest st cur).1,
         (tjfFields trP trH rest st cur).2)) ∧
    (∀ (trP trH : String → Option String) (k s : String) (rest : List (String × Json))
      (cs : List (String × Bool)), cliTranslatableKeys.contains k = false →
      cliFields trP trH ((k, .str s) :: rest) cs =
        ((k, .str s) :: (cliFields trP trH rest cs).1, (cliFields trP trH rest cs).2)) := by
  constructor
  · intro trP trH k s rest st cur hk
    simp only [tjfFields]
    by_cases hc : (st.flags.contains (cur ++ "/" ++ k)) = true
    · simp only [hc, if_true]
    · simp only [hc, Bool.false_eq_true, if_false, tjfValue, hk, Bool.false_and,
        Bool.false_eq_true, if_false]
  · intro trP trH k s rest cs hk
    simp only [cliFields, cliValue, hk, Bool.false_eq_true, if_false]

/-- C7 (witness): a concrete non-member key whose string value survives
both walkers unchanged with no translation request. -/
theorem c7_nonmember_keys_witness :
    translatableKeys.contains "foo" = false ∧
    tjfFields upcaseTr upcaseTr [("foo", .str "hello")] initSt "root" =
      (("foo", Json.str "hello") :: (tjfFields upcaseTr upcaseTr [] initSt "root").1,
       (tjfFields upcaseTr upcaseTr [] initSt "root").2) :=
  ⟨by decide,
    c7_nonmember_keys.1 upcaseTr upcaseTr "foo" "hello" [] initSt "root" (by decide)⟩

/-- C8 (counterexample): with an identity engine the run is not
byte-identical on markup leaves — on `{"text": "x<br>y"}` the markup
path returns `<p>xy</p>` (tier 1 finds no block element and no change,
the retained fragment fails the length-10 validation, tier 2 skips
1-character text nodes, and tier 3 wraps the extracted text in a
paragraph), which passes the quality gate and overwrites the leaf —
and on `{"items": ["hello"]}` the VisitedSet ends up containing the
bare sequence item path `root/items[0]`, which is not a path under a
recognized translatable key. -/
theorem c8_identity_counterexample :
    ((translate_json_fields (fun s => some s) (fun _ => some "<p>xy</p>")
        (Json.obj [("text", Json.str "x<br>y")]) initSt "root").1 ≠
      Json.obj [("text", Json.str "x<br>y")]) ∧
    (translate_json_fields (fun s => some s) (fun s => some s)
        (Json.obj [("items", Json.arr [Json.str "hello"])]) initSt "root").2.flags =
      ["root/items[0]"] ∧
    translatableKeys.contains "items" = false := by
  refine ⟨?_, by decide, by decide⟩
  intro h
  have h2 := congrArg (fun j => asStr (getFieldJ j "text")) h
  exact absurd h2 (by decide)

/-- C8 (amended): on a document with no markup-classified string, two
successive runs of the GUI walker with an identity translator leave
the document byte-identical to the original; the VisitedSet is the
walker's flag set, which can also contain bare sequence item paths. -/
theorem c8_identity_idempotent (trH : String → Option String) (d : Json) (st : WalkSt)
    (cur : String) (hmf : markupFree d = true) :
    (translate_json_fields (fun s => some s) trH d st cur).1 = d ∧
    (translate_json_fields (fun s => some s) trH
      (translate_json_fields (fun s => some s) trH d st cur).1
      (translate_json_fields (fun s => some s) trH d st cur).2 cur).1 = d := by
  have hkeep : ∀ s : String, (fun s => some s) s = none ∨ (fun s => some s) s = some s ∨
      ∃ t, (fun s => some s) s = some t ∧ (pstrip t).length < 3 :=
    fun s => Or.inr (Or.inl rfl)
  have h1 := (preserveAll (fun s => some s) trH hkeep (sizeOf d)).1 d st cur (le_refl _) hmf
  refine ⟨h1, ?_⟩
  rw [h1]
  exact (preserveAll (fun s => some s) trH hkeep (sizeOf d)).1 d _ cur (le_refl _) hmf

/-- C8 (witness): a concrete markup-free document on which two identity
runs keep the document byte-identical. -/
theorem c8_identity_idempotent_witness :
    markupFree (Json.obj [("text", Json.str "hello")]) = true ∧
    (translate_json_fields (fun s => some s) (fun _ => none)
      (Json.obj [("text", Json.str "hello")]) initSt "root").1 =
      Json.obj [("text", Json.str "hello")] :=
  ⟨by decide,
    (c8_identity_idempotent (fun _ => none) (Json.obj [("text", Json.str "hello")])
      initSt "root" (by decide)).1⟩

/-- C9: a per-leaf engine exception is caught — the leaf keeps its
original value, the request is still logged, no flag is added, and the
walker proceeds to the remaining fields unchanged — while a container
load failure propagates out of the pipeline, a repack failure
propagates, and a successfully loaded document always produces an
output document even if nothing was translated. -/
theorem c9_failure_semantics :
    (∀ (trP trH : String → Option String) (k s : String) (rest : List (String × Json))
      (st : WalkSt) (cur : String),
      translatableKeys.contains k = true → pstrip s ≠ "" → isMarkupGui s = false →
      trP s = none → st.flags.contains (cur ++ "/" ++ k) = false →
      tjfFields trP trH ((k, .str s) :: rest) st cur =
        ((k, .str s) ::
          (tjfFields trP trH rest (logCall st (cur ++ "/" ++ k) s false) cur).1,
         (tjfFields trP trH rest (logCall st (cur ++ "/" ++ k) s false) cur).2)) ∧
    (∀ (repack : Json → Except String Unit) (trP trH : String → Option String) (e : String),
      translate_h5p (.error e) repack trP trH = .error e) ∧
    (∀ (d : Json) (repack : Json → Except String Unit) (trP trH : String → Option String)
      (e2 : String),
      repack ((translate_json_fields trP trH d initSt "root").1) = .error e2 →
      translate_h5p (.ok d) repack trP trH = .error e2) ∧
    (∀ (d : Json) (repack : Json → Except String Unit) (trP trH : String → Option String)
      (u : Unit),
      repack ((translate_json_fields trP trH d initSt "root").1) = .ok u →
      translate_h5p (.ok d) repack trP trH =
        .ok ((translate_json_fields trP trH d initSt "root").1)) := by
  refine ⟨?_, ?_, ?_, ?_⟩
  · intro trP trH k s rest st cur hk hne hm hnone hfl
    have hbne : (pstrip s != "") = true := by simpa [bne_iff_ne] using hne
    have hcond : (translatableKeys.contains k && (pstrip s != "")) = true := by
      rw [hk, hbne]
      rfl
    simp only [tjfFields, hfl, Bool.false_eq_true, if_false, tjfValue, hcond, if_true,
      guiFieldStep, hm, hnone]
  · intro repack trP trH e
    rfl
  · intro d repack trP trH e2 hre
    simp only [translate_h5p, hre]
  · intro d repack trP trH u hre
    simp only [translate_h5p, hre]

/-- C9 (witness): a concrete field whose engine call raises — the leaf
keeps its value and traversal proceeds — and a concrete failing load. -/
theorem c9_failure_semantics_witness :
    (translatableKeys.contains "text" = true ∧ pstrip "hello" ≠ "" ∧
      isMarkupGui "hello" = false ∧
      ((fun _ => none) : String → Option String) "hello" = none ∧
      initSt.flags.contains ("root" ++ "/" ++ "text") = false) ∧
    tjfFields (fun _ => none) (fun _ => none) [("text", .str "hello")] initSt "root" =
      (("text", Json.str "hello") ::
        (tjfFields (fun _ => none) (fun _ => none) []
          (logCall initSt ("root" ++ "/" ++ "text") "hello" false) "root").1,
       (tjfFields (fun _ => none) (fun _ => none) []
          (logCall initSt ("root" ++ "/" ++ "text") "hello" false) "root").2) ∧
    translate_h5p (.error "bad zip") (fun _ => .ok ()) (fun _ => none) (fun _ => none) =
      .error "bad zip" :=
  ⟨⟨by decide, by decide, by decide, rfl, by decide⟩,
    c9_failure_semantics.1 (fun _ => none) (fun _ => none) "text" "hello" [] initSt "root"
      (by decide) (by decide) (by decide) rfl (by decide),
    c9_failure_semantics.2.1 (fun _ => .ok ()) (fun _ => none) (fun _ => none) "bad zip"⟩
